import Mathlib

/-!
Verification development for the Curiata CargoOps demo ledger.

The definitions below are a shallow embedding of the ledger model of
src/src/App.jsx: record collections live in a single `DB` structure,
JavaScript numbers are modelled as exact rationals (`Rat`), timestamps as
integers (epoch milliseconds), and JavaScript's in-place mutation of the
first matching element of an array is modelled by `updateFirst`.  Randomness
(`Math.random()`) is modelled by an explicit supply of rationals threaded
through the seeding functions.
-/

set_option maxHeartbeats 1000000

/-- Replace the first element satisfying `p` by its image under `f`
(the embedding of mutating the object returned by `Array.prototype.find`). -/
def updateFirst (p : α → Bool) (f : α → α) : List α → List α
  | [] => []
  | x :: xs => if p x then f x :: xs else x :: updateFirst p f xs

/-- Lookup in an association list (the embedding of JavaScript object property
read: first binding of the key wins; keys are unique in practice). -/
def lookupA : List (String × α) → String → Option α
  | [], _ => none
  | (k, v) :: rest, key => if k == key then some v else lookupA rest key

/-- Set a key in an association list, keeping the key's position if present
and appending it otherwise (JavaScript object property write). -/
def updateA : List (String × α) → String → α → List (String × α)
  | [], k, v => [(k, v)]
  | (k', v') :: rest, k, v =>
    if k' == k then (k, v) :: rest else (k', v') :: updateA rest k v

theorem updateFirst_of_find_none (p : α → Bool) (f : α → α) :
    ∀ l : List α, l.find? p = none → updateFirst p f l = l := by
  intro l
  induction l with
  | nil => intro _; rfl
  | cons x xs ih =>
    intro h
    rw [List.find?_cons] at h
    cases hx : p x with
    | true => rw [hx] at h; exact absurd h (by simp)
    | false =>
      rw [hx] at h
      simp [updateFirst, hx, ih h]

theorem find_updateFirst (p : α → Bool) (f : α → α) :
    ∀ (l : List α) (a : α), l.find? p = some a → (∀ x, p x = true → p (f x) = true) →
      (updateFirst p f l).find? p = some (f a) := by
  intro l
  induction l with
  | nil => intro a h _; simp [List.find?] at h
  | cons x xs ih =>
    intro a h hpf
    rw [List.find?_cons] at h
    cases hx : p x with
    | true =>
      rw [hx] at h
      have hax : a = x := by
        have : some x = some a := h
        exact (Option.some.inj this).symm
      subst hax
      simp [updateFirst, hx, List.find?_cons, hpf a hx]
    | false =>
      rw [hx] at h
      simp [updateFirst, hx, List.find?_cons, ih a h hpf]

theorem find_append_single (p : α → Bool) (l : List α) (x : α)
    (hl : l.find? p = none) (hx : p x = true) :
    (l ++ [x]).find? p = some x := by
  induction l with
  | nil => simp [List.find?_cons, hx]
  | cons y ys ih =>
    rw [List.find?_cons] at hl
    cases hy : p y with
    | true => rw [hy] at hl; exact absurd hl (by simp)
    | false =>
      rw [hy] at hl
      simp [List.find?_cons, hy, ih hl]

/-- Warehouse receipt record (the fields the ledger logic reads; presentation
only fields such as seals, marks and flags are not examined by any ledger
operation). -/
structure Receipt where
  id : String
  cargo_id : String
  date_in : Int
  indent_number : String
  quantity : Rat
  weight_kg : Rat
deriving DecidableEq, Repr

/-- Dispatch record (fields the ledger logic reads). -/
structure Dispatch where
  id : String
  cargo_id : String
  container_no : String
  date_dispatched : Int
  qty_packed : Rat
  total_weight_kg : Rat
deriving DecidableEq, Repr

/-- Derived inventory snapshot row, one per cargo lot. -/
structure Snapshot where
  id : String
  cargo_id : String
  status : String
  quantity : Rat
  weight_kg : Rat
  last_movement : Int
deriving DecidableEq, Repr

/-- User record; `tempPassword` is `none` when no temporary password is
outstanding (JavaScript `null`). -/
structure User where
  id : String
  email : String
  role : String
  name : String
  tempPassword : Option String
deriving DecidableEq, Repr

/-- The single persisted ledger document (`cc_seed_v1`).  Transport trips and
vehicles are independent of every property below and are omitted. -/
structure DB where
  warehouse_receipts : List Receipt
  dispatches : List Dispatch
  inventory_snapshot : List Snapshot
  users : List User
  passwords : List (String × String)
deriving DecidableEq, Repr

/-- Update applied in `ReceiptPage.save` to an existing snapshot: add the
receipt's quantity and weight, force status to "On Site", stamp last
movement with the receipt's arrival date. -/
def receiptUpd (r : Receipt) (s : Snapshot) : Snapshot :=
  { s with
    quantity := s.quantity + r.quantity,
    weight_kg := s.weight_kg + r.weight_kg,
    status := "On Site",
    last_movement := r.date_in }

/-- Snapshot created by `ReceiptPage.save` when the cargo id has none yet:
zero quantity/weight plus the receipt's deltas, status "On Site".  `newId`
stands for the random `uid("inv")`. -/
def receiptNew (r : Receipt) (newId : String) : Snapshot :=
  { id := newId, cargo_id := r.cargo_id, status := "On Site",
    quantity := 0 + r.quantity, weight_kg := 0 + r.weight_kg,
    last_movement := r.date_in }

/-- Update applied in `DispatchPage.save` to an existing snapshot:
clamp-decrement quantity and weight at zero, force status to "Dispatched"
when the resulting quantity is exactly zero, stamp last movement. -/
def dispatchUpd (d : Dispatch) (s : Snapshot) : Snapshot :=
  { s with
    quantity := max 0 (s.quantity - d.qty_packed),
    weight_kg := max 0 (s.weight_kg - d.total_weight_kg),
    status :=
      if max 0 (s.quantity - d.qty_packed) = 0 then "Dispatched" else s.status,
    last_movement := d.date_dispatched }

/-- Inventory snapshot currently on record for a cargo id (first match, the
embedding of `inventory_snapshot.find(i => i.cargo_id === c)`). -/
def snapFor (db : DB) (c : String) : Option Snapshot :=
  db.inventory_snapshot.find? (fun s => s.cargo_id == c)

/-- Embedding of `ReceiptPage.save`: prepend the receipt, then upsert the
inventory snapshot for its cargo id (creating an "On Site" snapshot with zero
quantity/weight if absent), add the receipt's quantity and weight, force the
status to "On Site" and stamp the last movement. -/
def applyReceipt (db : DB) (r : Receipt) (newId : String) : DB :=
  match db.inventory_snapshot.find? (fun s => s.cargo_id == r.cargo_id) with
  | some _ =>
    { db with
      warehouse_receipts := r :: db.warehouse_receipts,
      inventory_snapshot :=
        updateFirst (fun s => s.cargo_id == r.cargo_id) (receiptUpd r)
          db.inventory_snapshot }
  | none =>
    { db with
      warehouse_receipts := r :: db.warehouse_receipts,
      inventory_snapshot := db.inventory_snapshot ++ [receiptNew r newId] }

/-- Embedding of `DispatchPage.save`: prepend the dispatch; if a snapshot for
its cargo id exists, clamp-decrement quantity and weight, force status to
"Dispatched" when the resulting quantity is exactly zero, and stamp the last
movement; when no snapshot exists the inventory is untouched (`updateFirst`
with no match is the identity). -/
def applyDispatch (db : DB) (d : Dispatch) : DB :=
  { db with
    dispatches := d :: db.dispatches,
    inventory_snapshot :=
      updateFirst (fun s => s.cargo_id == d.cargo_id) (dispatchUpd d)
        db.inventory_snapshot }

theorem receiptUpd_keeps_cargo (r : Receipt) (s : Snapshot) :
    (receiptUpd r s).cargo_id = s.cargo_id := rfl

theorem dispatchUpd_keeps_cargo (d : Dispatch) (s : Snapshot) :
    (dispatchUpd d s).cargo_id = s.cargo_id := rfl

/-- C2: applying a dispatch to an existing snapshot clamps quantity and
weight at zero (never negative), and whenever the resulting quantity is
exactly zero the status is set to "Dispatched"; when the packed quantity
meets or exceeds the on-hand quantity the result is exactly zero. -/
theorem dispatch_clamps_at_zero (db : DB) (d : Dispatch) (s : Snapshot)
    (h : snapFor db d.cargo_id = some s) :
    (snapFor (applyDispatch db d) d.cargo_id).map
        (fun x => (x.quantity, x.weight_kg, x.status)) =
      some (max 0 (s.quantity - d.qty_packed),
            max 0 (s.weight_kg - d.total_weight_kg),
            if max 0 (s.quantity - d.qty_packed) = 0 then "Dispatched"
            else s.status) ∧
    (0 : Rat) ≤ max 0 (s.quantity - d.qty_packed) ∧
    (0 : Rat) ≤ max 0 (s.weight_kg - d.total_weight_kg) ∧
    (s.quantity ≤ d.qty_packed → max 0 (s.quantity - d.qty_packed) = 0) := by
  have hfind :
      (snapFor (applyDispatch db d) d.cargo_id) = some (dispatchUpd d s) := by
    unfold snapFor applyDispatch
    exact find_updateFirst _ _ _ s h (fun x hx => by
      simpa [dispatchUpd_keeps_cargo] using hx)
  refine ⟨?_, le_max_left _ _, le_max_left _ _, ?_⟩
  · rw [hfind]
    rfl
  · intro hle
    exact max_eq_left (by linarith)

def dbC2 : DB :=
  { warehouse_receipts := [], dispatches := [],
    inventory_snapshot :=
      [{ id := "inv1", cargo_id := "CG-2", status := "On Site",
         quantity := 10, weight_kg := 60, last_movement := 0 }],
    users := [], passwords := [] }

def snapC2 : Snapshot :=
  { id := "inv1", cargo_id := "CG-2", status := "On Site",
    quantity := 10, weight_kg := 60, last_movement := 0 }

def dC2 : Dispatch :=
  { id := "d1", cargo_id := "CG-2", container_no := "MSCU1",
    date_dispatched := 5, qty_packed := 25, total_weight_kg := 100 }

theorem dispatch_clamps_at_zero_witness :
    snapFor dbC2 dC2.cargo_id = some snapC2 ∧
    ((snapFor (applyDispatch dbC2 dC2) dC2.cargo_id).map
        (fun x => (x.quantity, x.weight_kg, x.status)) =
      some (max 0 (snapC2.quantity - dC2.qty_packed),
            max 0 (snapC2.weight_kg - dC2.total_weight_kg),
            if max 0 (snapC2.quantity - dC2.qty_packed) = 0 then "Dispatched"
            else snapC2.status) ∧
    (0 : Rat) ≤ max 0 (snapC2.quantity - dC2.qty_packed) ∧
    (0 : Rat) ≤ max 0 (snapC2.weight_kg - dC2.total_weight_kg) ∧
    (snapC2.quantity ≤ dC2.qty_packed →
      max 0 (snapC2.quantity - dC2.qty_packed) = 0)) :=
  ⟨by decide, dispatch_clamps_at_zero dbC2 dC2 snapC2 (by decide)⟩

/-- C3: dispatching a cargo id with no inventory snapshot records the
dispatch in the dispatches collection but leaves the inventory collection
entirely unchanged. -/
theorem dispatch_unknown_cargo (db : DB) (d : Dispatch)
    (h : snapFor db d.cargo_id = none) :
    (applyDispatch db d).dispatches = d :: db.dispatches ∧
    (applyDispatch db d).inventory_snapshot = db.inventory_snapshot := by
  refine ⟨rfl, ?_⟩
  unfold applyDispatch
  exact updateFirst_of_find_none _ _ _ h

def dbC3 : DB :=
  { warehouse_receipts := [], dispatches := [],
    inventory_snapshot :=
      [{ id := "inv1", cargo_id := "CG-1", status := "On Site",
         quantity := 4, weight_kg := 20, last_movement := 0 }],
    users := [], passwords := [] }

def dC3 : Dispatch :=
  { id := "d9", cargo_id := "CG-99", container_no := "MSCU2",
    date_dispatched := 7, qty_packed := 3, total_weight_kg := 15 }

theorem dispatch_unknown_cargo_witness :
    snapFor dbC3 dC3.cargo_id = none ∧
    ((applyDispatch dbC3 dC3).dispatches = dC3 :: dbC3.dispatches ∧
     (applyDispatch dbC3 dC3).inventory_snapshot = dbC3.inventory_snapshot) :=
  ⟨by decide, dispatch_unknown_cargo dbC3 dC3 (by decide)⟩

/-- C9: `ReceiptPage.save` sets the target snapshot's status to "On Site"
unconditionally, whether the snapshot already existed (in any status,
including "Dispatched") or is freshly created. -/
theorem receipt_forces_on_site (db : DB) (r : Receipt) (newId : String) :
    (snapFor (applyReceipt db r newId) r.cargo_id).map Snapshot.status =
      some "On Site" := by
  cases h : db.inventory_snapshot.find? (fun s => s.cargo_id == r.cargo_id) with
  | some s =>
    have hfind :
        snapFor (applyReceipt db r newId) r.cargo_id = some (receiptUpd r s) := by
      unfold snapFor applyReceipt
      rw [h]
      exact find_updateFirst _ _ _ s h (fun x hx => by
        simpa [receiptUpd_keeps_cargo] using hx)
    rw [hfind]; rfl
  | none =>
    have hfind :
        snapFor (applyReceipt db r newId) r.cargo_id =
          some (receiptNew r newId) := by
      unfold snapFor applyReceipt
      rw [h]
      exact find_append_single _ _ _ h (by simp [receiptNew])
    rw [hfind]; rfl

/-- A single cargo movement applied through the UI save handlers. -/
inductive LedgerOp where
  | receipt (r : Receipt)
  | dispatch (d : Dispatch)
deriving DecidableEq, Repr

/-- Apply one operation (freshly created snapshots get the placeholder id
since no property below reads snapshot ids). -/
def applyOp (db : DB) : LedgerOp → DB
  | .receipt r => applyReceipt db r ""
  | .dispatch d => applyDispatch db d

/-- Apply a sequence of receipt/dispatch operations in order. -/
def applyOps (db : DB) (ops : List LedgerOp) : DB := ops.foldl applyOp db

/-- Cargo id targeted by an operation. -/
def opCargo : LedgerOp → String
  | .receipt r => r.cargo_id
  | .dispatch d => d.cargo_id

/-- Signed quantity contribution of an operation. -/
def opQtyDelta : LedgerOp → Rat
  | .receipt r => r.quantity
  | .dispatch d => -d.qty_packed

/-- Signed weight contribution of an operation. -/
def opWtDelta : LedgerOp → Rat
  | .receipt r => r.weight_kg
  | .dispatch d => -d.total_weight_kg

/-- Check that an operation carries nonnegative quantity and weight (the
data model declares both as ≥ 0). -/
def opNonneg : LedgerOp → Bool
  | .receipt r => decide (0 ≤ r.quantity) && decide (0 ≤ r.weight_kg)
  | .dispatch d => decide (0 ≤ d.qty_packed) && decide (0 ≤ d.total_weight_kg)

/-- Sum of the receipts' quantities in a sequence. -/
def receiptsQty (ops : List LedgerOp) : Rat :=
  (ops.filterMap (fun op => match op with
    | .receipt r => some r.quantity
    | .dispatch _ => none)).sum

/-- Sum of the receipts' weights in a sequence. -/
def receiptsWt (ops : List LedgerOp) : Rat :=
  (ops.filterMap (fun op => match op with
    | .receipt r => some r.weight_kg
    | .dispatch _ => none)).sum

/-- Sum of the dispatches' packed quantities in a sequence. -/
def dispatchesQty (ops : List LedgerOp) : Rat :=
  (ops.filterMap (fun op => match op with
    | .receipt _ => none
    | .dispatch d => some d.qty_packed)).sum

/-- Sum of the dispatches' total weights in a sequence. -/
def dispatchesWt (ops : List LedgerOp) : Rat :=
  (ops.filterMap (fun op => match op with
    | .receipt _ => none
    | .dispatch d => some d.total_weight_kg)).sum

/-- Signed sum of quantity deltas. -/
def qtySum (ops : List LedgerOp) : Rat := (ops.map opQtyDelta).sum

/-- Signed sum of weight deltas. -/
def wtSum (ops : List LedgerOp) : Rat := (ops.map opWtDelta).sum

/-- Starting from running totals `(q, w)`, check that every prefix of the
sequence keeps both running totals nonnegative. -/
def prefixOk : Rat → Rat → List LedgerOp → Bool
  | _, _, [] => true
  | q, w, op :: rest =>
    decide (0 ≤ q + opQtyDelta op) && decide (0 ≤ w + opWtDelta op) &&
      prefixOk (q + opQtyDelta op) (w + opWtDelta op) rest

/-- Does the sequence contain at least one receipt? -/
def hasReceipt : List LedgerOp → Bool
  | [] => false
  | .receipt _ :: _ => true
  | .dispatch _ :: rest => hasReceipt rest

theorem qtySum_eq (ops : List LedgerOp) :
    qtySum ops = receiptsQty ops - dispatchesQty ops := by
  induction ops with
  | nil => simp [qtySum, receiptsQty, dispatchesQty]
  | cons op rest ih =>
    cases op with
    | receipt r =>
      simp [qtySum, receiptsQty, dispatchesQty, opQtyDelta,
        List.filterMap_cons] at ih ⊢
      linarith
    | dispatch d =>
      simp [qtySum, receiptsQty, dispatchesQty, opQtyDelta,
        List.filterMap_cons] at ih ⊢
      linarith

theorem wtSum_eq (ops : List LedgerOp) :
    wtSum ops = receiptsWt ops - dispatchesWt ops := by
  induction ops with
  | nil => simp [wtSum, receiptsWt, dispatchesWt]
  | cons op rest ih =>
    cases op with
    | receipt r =>
      simp [wtSum, receiptsWt, dispatchesWt, opWtDelta,
        List.filterMap_cons] at ih ⊢
      linarith
    | dispatch d =>
      simp [wtSum, receiptsWt, dispatchesWt, opWtDelta,
        List.filterMap_cons] at ih ⊢
      linarith

theorem snapFor_applyReceipt (db : DB) (r : Receipt) (nid : String) :
    (snapFor db r.cargo_id = none ∧
      snapFor (applyReceipt db r nid) r.cargo_id = some (receiptNew r nid)) ∨
    (∃ s, snapFor db r.cargo_id = some s ∧
      snapFor (applyReceipt db r nid) r.cargo_id = some (receiptUpd r s)) := by
  cases h : db.inventory_snapshot.find? (fun s => s.cargo_id == r.cargo_id) with
  | none =>
    left
    refine ⟨h, ?_⟩
    unfold snapFor applyReceipt
    rw [h]
    exact find_append_single _ _ _ h (by simp [receiptNew])
  | some s =>
    right
    refine ⟨s, h, ?_⟩
    unfold snapFor applyReceipt
    rw [h]
    exact find_updateFirst _ _ _ s h (fun x hx => by
      simpa [receiptUpd_keeps_cargo] using hx)

theorem snapFor_applyDispatch (db : DB) (d : Dispatch) :
    (snapFor db d.cargo_id = none ∧
      (applyDispatch db d).inventory_snapshot = db.inventory_snapshot) ∨
    (∃ s, snapFor db d.cargo_id = some s ∧
      snapFor (applyDispatch db d) d.cargo_id = some (dispatchUpd d s)) := by
  cases h : db.inventory_snapshot.find? (fun s => s.cargo_id == d.cargo_id) with
  | none =>
    left
    refine ⟨h, ?_⟩
    unfold applyDispatch
    exact updateFirst_of_find_none _ _ _ h
  | some s =>
    right
    refine ⟨s, h, ?_⟩
    unfold snapFor applyDispatch
    exact find_updateFirst _ _ _ s h (fun x hx => by
      simpa [dispatchUpd_keeps_cargo] using hx)

theorem qtySum_cons (op : LedgerOp) (rest : List LedgerOp) :
    qtySum (op :: rest) = opQtyDelta op + qtySum rest := by
  simp [qtySum]

theorem wtSum_cons (op : LedgerOp) (rest : List LedgerOp) :
    wtSum (op :: rest) = opWtDelta op + wtSum rest := by
  simp [wtSum]

theorem applyOps_track (c : String) :
    ∀ (ops : List LedgerOp) (db : DB) (q w : Rat),
      (∀ op ∈ ops, opCargo op = c) →
      (∀ op ∈ ops, opNonneg op = true) →
      prefixOk q w ops = true →
      ((snapFor db c = none ∧ q = 0 ∧ w = 0) ∨
        (∃ s, snapFor db c = some s ∧ s.quantity = q ∧ s.weight_kg = w)) →
      ((snapFor (applyOps db ops) c = none ∧
          q + qtySum ops = 0 ∧ w + wtSum ops = 0) ∨
        (∃ s, snapFor (applyOps db ops) c = some s ∧
          s.quantity = q + qtySum ops ∧ s.weight_kg = w + wtSum ops)) := by
  intro ops
  induction ops with
  | nil =>
    intro db q w _ _ _ hinv
    simpa [applyOps, qtySum, wtSum] using hinv
  | cons op rest ih =>
    intro db q w hc hnn hpre hinv
    have hpre' : (0 ≤ q + opQtyDelta op) ∧ (0 ≤ w + opWtDelta op) ∧
        prefixOk (q + opQtyDelta op) (w + opWtDelta op) rest = true := by
      simpa [prefixOk, Bool.and_eq_true, decide_eq_true_eq, and_assoc]
        using hpre
    obtain ⟨h1, h2, hrest⟩ := hpre'
    have hcop : opCargo op = c := hc op (List.mem_cons_self _ _)
    have hnnop : opNonneg op = true := hnn op (List.mem_cons_self _ _)
    have hstep :
        ((snapFor (applyOp db op) c = none ∧
            q + opQtyDelta op = 0 ∧ w + opWtDelta op = 0) ∨
          (∃ s, snapFor (applyOp db op) c = some s ∧
            s.quantity = q + opQtyDelta op ∧
            s.weight_kg = w + opWtDelta op)) := by
      cases op with
      | receipt r =>
        have hcr : r.cargo_id = c := hcop
        rcases snapFor_applyReceipt db r "" with ⟨hnone, hsome⟩ | ⟨s, hs, hsome⟩
        · rw [hcr] at hnone hsome
          rcases hinv with ⟨_, hq0, hw0⟩ | ⟨s, hs, _, _⟩
          · right
            refine ⟨receiptNew r "", hsome, ?_, ?_⟩
            · simp [receiptNew, opQtyDelta, hq0]
            · simp [receiptNew, opWtDelta, hw0]
          · rw [hnone] at hs; cases hs
        · rw [hcr] at hs hsome
          rcases hinv with ⟨hno, _, _⟩ | ⟨s', hs', hq, hw⟩
          · rw [hno] at hs; cases hs
          · rw [hs'] at hs
            have hss : s' = s := Option.some.inj hs
            subst hss
            right
            refine ⟨receiptUpd r s', hsome, ?_, ?_⟩
            · simp [receiptUpd, opQtyDelta, hq]
            · simp [receiptUpd, opWtDelta, hw]
      | dispatch d =>
        have hcd : d.cargo_id = c := hcop
        have hdq : (0 ≤ d.qty_packed) ∧ (0 ≤ d.total_weight_kg) := by
          simpa [opNonneg, Bool.and_eq_true, decide_eq_true_eq] using hnnop
        rcases snapFor_applyDispatch db d with ⟨hnone, hinvEq⟩ | ⟨s, hs, hsome⟩
        · rw [hcd] at hnone
          rcases hinv with ⟨_, hq0, hw0⟩ | ⟨s, hs, _, _⟩
          · have hqz : d.qty_packed = 0 := by
              have : 0 ≤ q + opQtyDelta (.dispatch d) := h1
              simp [opQtyDelta, hq0] at this
              linarith [hdq.1]
            have hwz : d.total_weight_kg = 0 := by
              have : 0 ≤ w + opWtDelta (.dispatch d) := h2
              simp [opWtDelta, hw0] at this
              linarith [hdq.2]
            left
            refine ⟨?_, ?_, ?_⟩
            · show (applyDispatch db d).inventory_snapshot.find?
                (fun s => s.cargo_id == c) = none
              rw [hinvEq]
              exact hnone
            · simp [opQtyDelta, hq0, hqz]
            · simp [opWtDelta, hw0, hwz]
          · rw [hnone] at hs; cases hs
        · rw [hcd] at hs hsome
          rcases hinv with ⟨hno, _, _⟩ | ⟨s', hs', hq, hw⟩
          · rw [hno] at hs; cases hs
          · rw [hs'] at hs
            have hss : s' = s := Option.some.inj hs
            subst hss
            right
            refine ⟨dispatchUpd d s', hsome, ?_, ?_⟩
            · have hge : 0 ≤ q - d.qty_packed := by
                have hh : 0 ≤ q + opQtyDelta (.dispatch d) := h1
                simp only [opQtyDelta] at hh
                linarith
              simp [dispatchUpd, opQtyDelta, hq]
              rw [max_eq_right hge]
              ring
            · have hge : 0 ≤ w - d.total_weight_kg := by
                have hh : 0 ≤ w + opWtDelta (.dispatch d) := h2
                simp only [opWtDelta] at hh
                linarith
              simp [dispatchUpd, opWtDelta, hw]
              rw [max_eq_right hge]
              ring
    have hrec := ih (applyOp db op) (q + opQtyDelta op) (w + opWtDelta op)
      (fun o ho => hc o (List.mem_cons_of_mem _ ho))
      (fun o ho => hnn o (List.mem_cons_of_mem _ ho)) hrest hstep
    have heq : applyOps db (op :: rest) = applyOps (applyOp db op) rest := rfl
    rw [heq, qtySum_cons, wtSum_cons, ← add_assoc, ← add_assoc]
    exact hrec

theorem snap_some_applyOp (c : String) (op : LedgerOp) (db : DB)
    (hc : opCargo op = c) (h : (snapFor db c).isSome = true) :
    (snapFor (applyOp db op) c).isSome = true := by
  cases op with
  | receipt r =>
    have hcr : r.cargo_id = c := hc
    rcases snapFor_applyReceipt db r "" with ⟨_, hsome⟩ | ⟨s, _, hsome⟩ <;>
      (rw [hcr] at hsome; simp [applyOp, hsome])
  | dispatch d =>
    have hcd : d.cargo_id = c := hc
    rcases snapFor_applyDispatch db d with ⟨_, hinvEq⟩ | ⟨s, _, hsome⟩
    · show ((applyDispatch db d).inventory_snapshot.find?
        (fun s => s.cargo_id == c)).isSome = true
      rw [hinvEq]
      exact h
    · rw [hcd] at hsome
      simp [applyOp, hsome]

theorem snap_some_applyOps (c : String) :
    ∀ (ops : List LedgerOp) (db : DB), (∀ op ∈ ops, opCargo op = c) →
      (snapFor db c).isSome = true →
      (snapFor (applyOps db ops) c).isSome = true := by
  intro ops
  induction ops with
  | nil => intro db _ h; simpa [applyOps] using h
  | cons op rest ih =>
    intro db hc h
    have heq : applyOps db (op :: rest) = applyOps (applyOp db op) rest := rfl
    rw [heq]
    exact ih (applyOp db op) (fun o ho => hc o (List.mem_cons_of_mem _ ho))
      (snap_some_applyOp c op db (hc op (List.mem_cons_self _ _)) h)

theorem hasReceipt_snap_some (c : String) :
    ∀ (ops : List LedgerOp) (db : DB), (∀ op ∈ ops, opCargo op = c) →
      hasReceipt ops = true →
      (snapFor (applyOps db ops) c).isSome = true := by
  intro ops
  induction ops with
  | nil => intro db _ h; simp [hasReceipt] at h
  | cons op rest ih =>
    intro db hc h
    have heq : applyOps db (op :: rest) = applyOps (applyOp db op) rest := rfl
    rw [heq]
    cases op with
    | receipt r =>
      have hcr : r.cargo_id = c := hc (.receipt r) (List.mem_cons_self _ _)
      have hsome : (snapFor (applyOp db (.receipt r)) c).isSome = true := by
        rcases snapFor_applyReceipt db r "" with ⟨_, hs⟩ | ⟨s, _, hs⟩ <;>
          (rw [hcr] at hs; simp [applyOp, hs])
      exact snap_some_applyOps c rest _
        (fun o ho => hc o (List.mem_cons_of_mem _ ho)) hsome
    | dispatch d =>
      have hr : hasReceipt rest = true := by simpa [hasReceipt] using h
      exact ih (applyOp db (.dispatch d))
        (fun o ho => hc o (List.mem_cons_of_mem _ ho)) hr

theorem prefixOk_sums :
    ∀ (ops : List LedgerOp) (q w : Rat), prefixOk q w ops = true → ops ≠ [] →
      0 ≤ q + qtySum ops ∧ 0 ≤ w + wtSum ops := by
  intro ops
  induction ops with
  | nil => intro q w _ hne; exact absurd rfl hne
  | cons op rest ih =>
    intro q w hpre _
    have hpre' : (0 ≤ q + opQtyDelta op) ∧ (0 ≤ w + opWtDelta op) ∧
        prefixOk (q + opQtyDelta op) (w + opWtDelta op) rest = true := by
      simpa [prefixOk, Bool.and_eq_true, decide_eq_true_eq, and_assoc]
        using hpre
    obtain ⟨h1, h2, hrest⟩ := hpre'
    rw [qtySum_cons, wtSum_cons, ← add_assoc, ← add_assoc]
    cases rest with
    | nil => simpa [qtySum, wtSum] using And.intro h1 h2
    | cons o os =>
      exact ih (q + opQtyDelta op) (w + opWtDelta op) hrest (by simp)

/-- C1 (amended): for a sequence of receipts and dispatches on a single
cargo id, applied to a ledger with no snapshot for that id, containing at
least one receipt, with nonnegative per-record quantities and weights, and
such that every prefix of the sequence keeps the running quantity and
weight sums nonnegative, the final snapshot quantity equals
max(0, sum of receipt quantities − sum of dispatched quantities) and the
weight follows the analogous rule.  (Without the prefix condition the
per-step clamping of `DispatchPage.save` makes the equality fail.) -/
theorem ledger_fold_matches_sums (c : String) (db : DB) (ops : List LedgerOp)
    (h0 : snapFor db c = none)
    (hc : ∀ op ∈ ops, opCargo op = c)
    (hnn : ∀ op ∈ ops, opNonneg op = true)
    (hpre : prefixOk 0 0 ops = true)
    (hrec : hasReceipt ops = true) :
    (snapFor (applyOps db ops) c).map (fun s => (s.quantity, s.weight_kg)) =
      some (max 0 (receiptsQty ops - dispatchesQty ops),
            max 0 (receiptsWt ops - dispatchesWt ops)) := by
  have htrack := applyOps_track c ops db 0 0 hc hnn hpre (Or.inl ⟨h0, rfl, rfl⟩)
  have hsome := hasReceipt_snap_some c ops db hc hrec
  have hne : ops ≠ [] := by
    intro hz
    rw [hz] at hrec
    simp [hasReceipt] at hrec
  have hsums := prefixOk_sums ops 0 0 hpre hne
  have hq' : 0 ≤ qtySum ops := by
    have := hsums.1
    linarith
  have hw' : 0 ≤ wtSum ops := by
    have := hsums.2
    linarith
  rcases htrack with ⟨hnone, _, _⟩ | ⟨s, hs, hq, hw⟩
  · rw [hnone] at hsome
    simp at hsome
  · rw [hs]
    show some (s.quantity, s.weight_kg) = _
    have e1 : s.quantity = max 0 (receiptsQty ops - dispatchesQty ops) := by
      rw [hq, zero_add, ← qtySum_eq, max_eq_right hq']
    have e2 : s.weight_kg = max 0 (receiptsWt ops - dispatchesWt ops) := by
      rw [hw, zero_add, ← wtSum_eq, max_eq_right hw']
    rw [e1, e2]

/-- Ledger with all collections empty. -/
def dbEmpty : DB :=
  { warehouse_receipts := [], dispatches := [], inventory_snapshot := [],
    users := [], passwords := [] }

def rC1w : Receipt :=
  { id := "r1", cargo_id := "CG-1", date_in := 1, indent_number := "i1",
    quantity := 50, weight_kg := 300 }

def dC1w : Dispatch :=
  { id := "d1", cargo_id := "CG-1", container_no := "M1",
    date_dispatched := 2, qty_packed := 20, total_weight_kg := 120 }

def opsC1w : List LedgerOp := [.receipt rC1w, .dispatch dC1w]

theorem ledger_fold_matches_sums_witness :
    (snapFor dbEmpty "CG-1" = none ∧ prefixOk 0 0 opsC1w = true ∧
      hasReceipt opsC1w = true ∧ (∀ op ∈ opsC1w, opCargo op = "CG-1") ∧
      (∀ op ∈ opsC1w, opNonneg op = true)) ∧
    (snapFor (applyOps dbEmpty opsC1w) "CG-1").map
        (fun s => (s.quantity, s.weight_kg)) =
      some (max 0 (receiptsQty opsC1w - dispatchesQty opsC1w),
            max 0 (receiptsWt opsC1w - dispatchesWt opsC1w)) :=
  ⟨⟨by decide,
    by
      simp [prefixOk, opsC1w, opQtyDelta, opWtDelta, rC1w, dC1w]
      norm_num,
    by decide, by decide, by decide⟩,
   ledger_fold_matches_sums "CG-1" dbEmpty opsC1w (by decide) (by decide)
     (by decide)
     (by
       simp [prefixOk, opsC1w, opQtyDelta, opWtDelta, rC1w, dC1w]
       norm_num)
     (by decide)⟩

def rC1a : Receipt :=
  { id := "r1", cargo_id := "CG-1", date_in := 1, indent_number := "i1",
    quantity := 10, weight_kg := 100 }

def dC1a : Dispatch :=
  { id := "d1", cargo_id := "CG-1", container_no := "M1",
    date_dispatched := 2, qty_packed := 20, total_weight_kg := 200 }

def rC1b : Receipt :=
  { id := "r2", cargo_id := "CG-1", date_in := 3, indent_number := "i2",
    quantity := 5, weight_kg := 50 }

def opsC1bad : List LedgerOp := [.receipt rC1a, .dispatch dC1a, .receipt rC1b]

/-- C1 counterexample: receipts 10 then 5 with an intervening over-dispatch
of 20 end at snapshot quantity 5, while max(0, 15 − 20) = 0, so the final
snapshot quantity is not max(0, ΣR − ΣD) in general: the intermediate clamp
forgets the over-dispatched remainder. -/
theorem ledger_fold_counterexample :
    (snapFor (applyOps dbEmpty opsC1bad) "CG-1").map Snapshot.quantity =
      some 5 ∧
    max 0 (receiptsQty opsC1bad - dispatchesQty opsC1bad) = 0 ∧
    (snapFor (applyOps dbEmpty opsC1bad) "CG-1").map Snapshot.quantity ≠
      some (max 0 (receiptsQty opsC1bad - dispatchesQty opsC1bad)) := by
  have hsum : max 0 (receiptsQty opsC1bad - dispatchesQty opsC1bad) = 0 := by
    have : receiptsQty opsC1bad - dispatchesQty opsC1bad = -5 := by
      simp [receiptsQty, dispatchesQty, opsC1bad, rC1a, rC1b, dC1a]
      norm_num
    rw [this]
    exact max_eq_left (by norm_num)
  have hval : (snapFor (applyOps dbEmpty opsC1bad) "CG-1").map
      Snapshot.quantity = some 5 := by
    have hclamp : max (0 : Rat) (0 + 10 - 20) = 0 := max_eq_left (by norm_num)
    simp [applyOps, applyOp, opsC1bad, applyReceipt, applyDispatch, dbEmpty,
      snapFor, rC1a, rC1b, dC1a, receiptNew, receiptUpd, dispatchUpd,
      updateFirst, List.find?, hclamp]
    norm_num
  refine ⟨hval, hsum, ?_⟩
  rw [hval, hsum]
  intro hcontra
  have : (5 : Rat) = 0 := Option.some.inj hcontra
  norm_num at this

/-- One row of the movement-history drawer. -/
structure MovementEvent where
  type : String
  date : Int
  qty : Rat
  details : String
deriving DecidableEq, Repr

/-- Receipt rows contributed to the movement history of a cargo id
(dated by `date_in`, positive quantity delta). -/
def receiptEvents (db : DB) (c : String) : List MovementEvent :=
  (db.warehouse_receipts.filter (fun r => r.cargo_id == c)).map
    (fun r => { type := "Receipt", date := r.date_in, qty := r.quantity,
                details := r.indent_number })

/-- Dispatch rows contributed to the movement history of a cargo id
(dated by `date_dispatched`, negative quantity delta). -/
def dispatchEvents (db : DB) (c : String) : List MovementEvent :=
  (db.dispatches.filter (fun d => d.cargo_id == c)).map
    (fun d => { type := "Dispatch", date := d.date_dispatched,
                qty := -d.qty_packed, details := d.container_no })

/-- Stable insertion into a list sorted by date: the new element goes in
front of the first element whose date is not strictly smaller. -/
def insertByDate (e : MovementEvent) : List MovementEvent → List MovementEvent
  | [] => [e]
  | x :: xs => if x.date < e.date then x :: insertByDate e xs else e :: x :: xs

/-- Stable sort by date.  `Array.prototype.sort` is required to be stable by
the ECMAScript specification, and the stable sort of a list by a total
preorder is unique, so insertion sort is an exact model of the source's
`.sort((a,b) => new Date(a.date) - new Date(b.date))`. -/
def sortByDate : List MovementEvent → List MovementEvent
  | [] => []
  | x :: xs => insertByDate x (sortByDate xs)

/-- Embedding of the merge in `MovementDrawer`: receipts (in collection
order) followed by dispatches (in collection order), stably sorted by
timestamp. -/
def movementHistory (db : DB) (c : String) : List MovementEvent :=
  sortByDate (receiptEvents db c ++ dispatchEvents db c)

theorem mem_insertByDate (e : MovementEvent) :
    ∀ (l : List MovementEvent) (y : MovementEvent),
      y ∈ insertByDate e l → y = e ∨ y ∈ l := by
  intro l
  induction l with
  | nil => intro y hy; simp [insertByDate] at hy; exact Or.inl hy
  | cons x xs ih =>
    intro y hy
    by_cases hx : x.date < e.date
    · simp only [insertByDate, if_pos hx, List.mem_cons] at hy
      rcases hy with hy | hy
      · exact Or.inr (by simp [hy])
      · rcases ih y hy with h | h
        · exact Or.inl h
        · exact Or.inr (by simp [h])
    · simp only [insertByDate, if_neg hx, List.mem_cons] at hy
      rcases hy with hy | hy
      · exact Or.inl hy
      · exact Or.inr (by simpa using hy)

theorem pairwise_insertByDate (e : MovementEvent) :
    ∀ l : List MovementEvent,
      l.Pairwise (fun a b => a.date ≤ b.date) →
      (insertByDate e l).Pairwise (fun a b => a.date ≤ b.date) := by
  intro l
  induction l with
  | nil => intro _; simp [insertByDate]
  | cons x xs ih =>
    intro h
    rw [List.pairwise_cons] at h
    obtain ⟨hx_all, hxs⟩ := h
    by_cases hx : x.date < e.date
    · rw [insertByDate, if_pos hx, List.pairwise_cons]
      refine ⟨?_, ih hxs⟩
      intro y hy
      rcases mem_insertByDate e xs y hy with rfl | hmem
      · exact le_of_lt hx
      · exact hx_all y hmem
    · rw [insertByDate, if_neg hx, List.pairwise_cons]
      push_neg at hx
      refine ⟨?_, by rw [List.pairwise_cons]; exact ⟨hx_all, hxs⟩⟩
      intro y hy
      rcases List.mem_cons.1 hy with rfl | hmem
      · exact hx
      · exact le_trans hx (hx_all y hmem)

theorem pairwise_sortByDate :
    ∀ l : List MovementEvent,
      (sortByDate l).Pairwise (fun a b => a.date ≤ b.date) := by
  intro l
  induction l with
  | nil => simp [sortByDate]
  | cons x xs ih => exact pairwise_insertByDate x (sortByDate xs) ih

theorem filter_insertByDate (e : MovementEvent) (t : Int) :
    ∀ l : List MovementEvent,
      (insertByDate e l).filter (fun x => x.date == t) =
        if e.date == t then
          e :: l.filter (fun x => x.date == t)
        else l.filter (fun x => x.date == t) := by
  intro l
  induction l with
  | nil =>
    by_cases he : e.date = t <;> simp [insertByDate, List.filter_cons, he]
  | cons x xs ih =>
    by_cases hx : x.date < e.date
    · have hxt : (x.date == t) = true → (e.date == t) = false := by
        intro h1
        have h1' : x.date = t := by simpa using h1
        have : e.date ≠ t := by omega
        simpa using this
      rw [insertByDate, if_pos hx]
      by_cases he : e.date = t
      · have hxne : ¬(x.date = t) := by omega
        simp [List.filter_cons, he, hxne, ih]
      · by_cases hxeq : x.date = t <;>
          simp [List.filter_cons, he, hxeq, ih]
    · rw [insertByDate, if_neg hx]
      by_cases he : e.date = t <;>
        by_cases hxeq : x.date = t <;>
          simp [List.filter_cons, he, hxeq]

theorem filter_sortByDate (t : Int) :
    ∀ l : List MovementEvent,
      (sortByDate l).filter (fun x => x.date == t) =
        l.filter (fun x => x.date == t) := by
  intro l
  induction l with
  | nil => rfl
  | cons x xs ih =>
    rw [sortByDate, filter_insertByDate]
    by_cases hx : x.date = t <;> simp [List.filter_cons, hx, ih]

theorem insertByDate_perm (e : MovementEvent) :
    ∀ l : List MovementEvent, (insertByDate e l).Perm (e :: l) := by
  intro l
  induction l with
  | nil => simp [insertByDate]
  | cons x xs ih =>
    by_cases hx : x.date < e.date
    · rw [insertByDate, if_pos hx]
      exact (List.Perm.cons x ih).trans (List.Perm.swap e x xs)
    · rw [insertByDate, if_neg hx]

theorem sortByDate_perm :
    ∀ l : List MovementEvent, (sortByDate l).Perm l := by
  intro l
  induction l with
  | nil => simp [sortByDate]
  | cons x xs ih =>
    exact (insertByDate_perm x (sortByDate xs)).trans (List.Perm.cons x ih)

/-- C4: `movementHistory` returns the merged receipt and dispatch events of
a cargo id in non-decreasing timestamp order; among events with an equal
timestamp the output order is exactly the order of the merged input list
(receipts in collection order before dispatches in collection order), and
the output is a permutation of the merged input.  The operation reads the
ledger without modifying it (it is a pure function of `db`). -/
theorem movementHistory_sorted_stable (db : DB) (c : String) :
    (movementHistory db c).Pairwise (fun a b => a.date ≤ b.date) ∧
    (∀ t : Int, (movementHistory db c).filter (fun e => e.date == t) =
      (receiptEvents db c).filter (fun e => e.date == t) ++
        (dispatchEvents db c).filter (fun e => e.date == t)) ∧
    (movementHistory db c).Perm (receiptEvents db c ++ dispatchEvents db c) := by
  refine ⟨pairwise_sortByDate _, ?_, sortByDate_perm _⟩
  intro t
  rw [movementHistory, filter_sortByDate, List.filter_append]

/-- State of the persisted document under the storage key: either a
serialization of a ledger (a string `JSON.parse` accepts and that
round-trips to a `DB`) or a corrupt string that `JSON.parse` rejects.
`none` models a missing key. -/
inductive StoredDoc where
  | doc (d : DB)
  | corrupt
deriving DecidableEq, Repr

/-- Embedding of `seedIfNeeded`: if the storage key holds anything at all
(`localStorage.getItem(STORAGE_KEY)` is truthy, parseable or not), do
nothing; otherwise store the generated seed ledger.  `seed` stands for the
randomized seed document built on this run. -/
def seedIfNeeded (seed : DB) : Option StoredDoc → Option StoredDoc
  | some v => some v
  | none => some (StoredDoc.doc seed)

/-- Embedding of `getDB`: run `seedIfNeeded`, then `JSON.parse` the stored
string.  Parsing a corrupt document throws (modelled with `Except.error`);
the `none` arm is unreachable after seeding. -/
def getDB (seed : DB) (store : Option StoredDoc) :
    Except String DB × Option StoredDoc :=
  match seedIfNeeded seed store with
  | some (StoredDoc.doc d) => (Except.ok d, some (StoredDoc.doc d))
  | some StoredDoc.corrupt =>
    (Except.error "SyntaxError: unexpected token", some StoredDoc.corrupt)
  | none => (Except.error "missing", none)

/-- C5 (amended): loading with a missing stored document reseeds and
succeeds with the seed ledger, and loading a parseable stored document
succeeds with its contents — but a stored corrupt document is not treated
as absent: the presence-only check in `seedIfNeeded` skips reseeding, and
the subsequent `JSON.parse` raises an error that load does not catch. -/
theorem getDB_soft_only_when_missing (seed : DB) :
    getDB seed none = (Except.ok seed, some (StoredDoc.doc seed)) ∧
    (∀ d : DB, getDB seed (some (StoredDoc.doc d)) =
      (Except.ok d, some (StoredDoc.doc d))) ∧
    getDB seed (some StoredDoc.corrupt) =
      (Except.error "SyntaxError: unexpected token", some StoredDoc.corrupt) :=
  ⟨rfl, fun _ => rfl, rfl⟩

/-- C5 counterexample: with a corrupt stored document, `getDB` raises a
parse error instead of reseeding — the store stays corrupt and no ledger is
returned, contradicting the claim that a corrupt document triggers
reseeding and that loading never produces an error. -/
theorem getDB_corrupt_errors :
    getDB dbEmpty (some StoredDoc.corrupt) =
      (Except.error "SyntaxError: unexpected token", some StoredDoc.corrupt) :=
  rfl

/-- Outcome of a sign-in attempt, distinguishing the code path taken. -/
inductive LoginOutcome where
  | permOk
  | tempOk
  | fail
deriving DecidableEq, Repr

/-- The first test of `LoginPage.doLogin`:
`db.passwords[email] && db.passwords[email] === password`.  An empty stored
password never matches because the empty string is falsy; a missing entry
never matches.  In `doLogin` this permanent-password check runs before the
temporary-password check; a successful temporary check consumes the
temporary password (sets it to null) and promotes it to permanent. -/
def permCheck (db : DB) (email password : String) : Bool :=
  match lookupA db.passwords email with
  | some p => (p != "") && (p == password)
  | none => false

/-- Embedding of the rest of `LoginPage.doLogin`; see `permCheck` for the
first branch's test. -/
def doLogin (db : DB) (email password : String) : LoginOutcome × DB :=
  match db.users.find? (fun u => u.email == email) with
  | some user =>
    if permCheck db email password then (LoginOutcome.permOk, db)
    else if user.tempPassword == some password then
      (LoginOutcome.tempOk,
        { db with
          users := updateFirst (fun u => u.email == email)
            (fun u => { u with tempPassword := none }) db.users,
          passwords := updateA db.passwords email password })
    else (LoginOutcome.fail, db)
  | none => (LoginOutcome.fail, db)

/-- Embedding of `UsersPage.invite`: push the new user and store the
invitation's temporary password as the email's permanent password ("set
temp as password until first login"). -/
def invite (db : DB) (u : User) : DB :=
  { db with
    users := db.users ++ [u],
    passwords := updateA db.passwords u.email (u.tempPassword.getD "") }

theorem lookupA_updateA_self (l : List (String × String)) (k v : String) :
    lookupA (updateA l k v) k = some v := by
  induction l with
  | nil => simp [updateA, lookupA]
  | cons kv rest ih =>
    by_cases hk : kv.1 == k
    · simp [updateA, hk, lookupA]
    · simp [updateA, lookupA, hk, ih]

theorem permCheck_of_lookup (db : DB) (e pw : String)
    (hp : lookupA db.passwords e = some pw) (hne : pw ≠ "") :
    permCheck db e pw = true := by
  simp [permCheck, hp, hne]

theorem permCheck_false_of_ne (db : DB) (e t : String)
    (hperm : lookupA db.passwords e ≠ some t) :
    permCheck db e t = false := by
  unfold permCheck
  cases hl : lookupA db.passwords e with
  | none => rfl
  | some p =>
    have hpt : p ≠ t := by
      intro h
      exact hperm (by rw [hl, h])
    simp [hpt]

theorem doLogin_perm_aux (db : DB) (e pw : String) (u : User)
    (hu : db.users.find? (fun x => x.email == e) = some u)
    (hok : permCheck db e pw = true) :
    doLogin db e pw = (LoginOutcome.permOk, db) := by
  simp [doLogin, hu, hok]

theorem doLogin_temp_aux (db : DB) (e t : String) (u : User)
    (hu : db.users.find? (fun x => x.email == e) = some u)
    (hok : permCheck db e t = false)
    (ht : u.tempPassword = some t) :
    doLogin db e t =
      (LoginOutcome.tempOk,
        { db with
          users := updateFirst (fun x => x.email == e)
            (fun x => { x with tempPassword := none }) db.users,
          passwords := updateA db.passwords e t }) := by
  simp [doLogin, hu, hok, ht]

/-- C6 (amended): when a user's outstanding temporary password is non-empty
and differs from the email's stored permanent-password entry, a first
sign-in with it succeeds through the temporary branch, clears the user's
temporary password and promotes it to the permanent password; a second
sign-in with the same string then succeeds through the permanent branch
(the temporary credential is gone), leaving the ledger unchanged.
(When the stored permanent password already equals the temporary one — as
happens for invited users — the first sign-in takes the permanent branch
and nothing is consumed, so the hypotheses are necessary.) -/
theorem temp_login_consumes (db : DB) (e t : String) (u : User)
    (hu : db.users.find? (fun x => x.email == e) = some u)
    (ht : u.tempPassword = some t)
    (hne : t ≠ "")
    (hperm : lookupA db.passwords e ≠ some t) :
    (doLogin db e t).1 = LoginOutcome.tempOk ∧
    ((doLogin db e t).2.users.find? (fun x => x.email == e)).map
      User.tempPassword = some none ∧
    lookupA (doLogin db e t).2.passwords e = some t ∧
    doLogin (doLogin db e t).2 e t = (LoginOutcome.permOk, (doLogin db e t).2) := by
  have hok : permCheck db e t = false := permCheck_false_of_ne db e t hperm
  have h1 := doLogin_temp_aux db e t u hu hok ht
  have hfind1 :
      (doLogin db e t).2.users.find? (fun x => x.email == e) =
        some { u with tempPassword := none } := by
    rw [h1]
    exact find_updateFirst _ _ _ u hu (fun x hx => by simpa using hx)
  have hpw1 : lookupA (doLogin db e t).2.passwords e = some t := by
    rw [h1]
    exact lookupA_updateA_self _ _ _
  refine ⟨by rw [h1], by rw [hfind1]; rfl, hpw1, ?_⟩
  exact doLogin_perm_aux _ e t _ hfind1 (permCheck_of_lookup _ e t hpw1 hne)

def uC6 : User :=
  { id := "u1", email := "a@x", role := "Viewer", name := "A",
    tempPassword := some "T9" }

def dbC6w : DB :=
  { warehouse_receipts := [], dispatches := [], inventory_snapshot := [],
    users := [uC6], passwords := [("a@x", "old")] }

theorem temp_login_consumes_witness :
    (dbC6w.users.find? (fun x => x.email == "a@x") = some uC6 ∧
      uC6.tempPassword = some "T9" ∧ ("T9" : String) ≠ "" ∧
      lookupA dbC6w.passwords "a@x" ≠ some "T9") ∧
    ((doLogin dbC6w "a@x" "T9").1 = LoginOutcome.tempOk ∧
    ((doLogin dbC6w "a@x" "T9").2.users.find? (fun x => x.email == "a@x")).map
      User.tempPassword = some none ∧
    lookupA (doLogin dbC6w "a@x" "T9").2.passwords "a@x" = some "T9" ∧
    doLogin (doLogin dbC6w "a@x" "T9").2 "a@x" "T9" =
      (LoginOutcome.permOk, (doLogin dbC6w "a@x" "T9").2)) :=
  ⟨⟨by decide, by decide, by decide, by decide⟩,
   temp_login_consumes dbC6w "a@x" "T9" uC6 (by decide) (by decide)
     (by decide) (by decide)⟩

def uC6b : User :=
  { id := "u2", email := "b@x", role := "Viewer", name := "B",
    tempPassword := some "T9" }

def dbC6b : DB :=
  { warehouse_receipts := [], dispatches := [], inventory_snapshot := [],
    users := [uC6b], passwords := [("b@x", "T9")] }

/-- C6 counterexample: a user whose stored permanent password equals their
outstanding temporary password (exactly what `UsersPage.invite` creates)
signs in with the temporary password, but the permanent branch fires first:
the temporary password is NOT consumed and the ledger is unchanged,
contradicting the claim that a first sign-in with an outstanding temporary
password always consumes it. -/
theorem temp_login_counterexample :
    (doLogin dbC6b "b@x" "T9").1 = LoginOutcome.permOk ∧
    ((doLogin dbC6b "b@x" "T9").2.users.find? (fun x => x.email == "b@x")).map
      User.tempPassword = some (some "T9") ∧
    (doLogin dbC6b "b@x" "T9").2 = dbC6b := by
  decide

/-- C10 (amended): when the submitted password matches a non-empty stored
permanent password, sign-in succeeds through the permanent branch and
returns the ledger unchanged (in particular the user's outstanding
tempPassword is not consumed); consequently an invited user — whose
temporary password is stored as their permanent password too — signs in the
first time through the permanent branch and keeps their tempPassword,
provided the invitation's temporary password is non-empty.  (An invitation
with an empty temporary password falls through to the temporary branch,
which does consume it, so the non-emptiness hypothesis is necessary.) -/
theorem perm_branch_checked_first (db : DB) (e pw : String) (u : User)
    (hu : db.users.find? (fun x => x.email == e) = some u)
    (hp : lookupA db.passwords e = some pw)
    (hne : pw ≠ "") :
    doLogin db e pw = (LoginOutcome.permOk, db) ∧
    (∀ (db2 : DB) (nu : User) (tp : String), tp ≠ "" →
      nu.tempPassword = some tp →
      db2.users.find? (fun x => x.email == nu.email) = none →
      (invite db2 nu).users.find? (fun x => x.email == nu.email) = some nu ∧
      doLogin (invite db2 nu) nu.email tp =
        (LoginOutcome.permOk, invite db2 nu)) := by
  constructor
  · exact doLogin_perm_aux db e pw u hu (permCheck_of_lookup db e pw hp hne)
  · intro db2 nu tp htp hnt hfresh
    have hfind : (invite db2 nu).users.find? (fun x => x.email == nu.email) =
        some nu := by
      show (db2.users ++ [nu]).find? (fun x => x.email == nu.email) = some nu
      exact find_append_single _ _ _ hfresh (by simp)
    have hpw : lookupA (invite db2 nu).passwords nu.email = some tp := by
      show lookupA (updateA db2.passwords nu.email (nu.tempPassword.getD ""))
        nu.email = some tp
      rw [hnt]
      exact lookupA_updateA_self _ _ _
    exact ⟨hfind, doLogin_perm_aux _ _ _ _ hfind
      (permCheck_of_lookup _ _ _ hpw htp)⟩

def uC10 : User :=
  { id := "u3", email := "c@x", role := "Admin", name := "C",
    tempPassword := some "Temp1!" }

def dbC10 : DB :=
  { warehouse_receipts := [], dispatches := [], inventory_snapshot := [],
    users := [uC10], passwords := [("c@x", "pw1")] }

theorem perm_branch_checked_first_witness :
    (dbC10.users.find? (fun x => x.email == "c@x") = some uC10 ∧
      lookupA dbC10.passwords "c@x" = some "pw1" ∧ ("pw1" : String) ≠ "") ∧
    doLogin dbC10 "c@x" "pw1" = (LoginOutcome.permOk, dbC10) :=
  ⟨⟨by decide, by decide, by decide⟩,
   (perm_branch_checked_first dbC10 "c@x" "pw1" uC10 (by decide) (by decide)
     (by decide)).1⟩

def uC10b : User :=
  { id := "u4", email := "d@x", role := "Viewer", name := "D",
    tempPassword := some "" }

def dbC10b : DB :=
  { warehouse_receipts := [], dispatches := [], inventory_snapshot := [],
    users := [], passwords := [] }

/-- C10 counterexample: inviting a user with an empty temporary password
stores the empty string as their permanent password, which is falsy, so
their first sign-in with the matching (empty) password does not take the
permanent branch: it falls through to the temporary branch and clears the
tempPassword, contradicting the claim that a password matching the stored
permanent password always logs in via the permanent branch leaving
tempPassword untouched. -/
theorem perm_branch_counterexample :
    lookupA (invite dbC10b uC10b).passwords "d@x" = some "" ∧
    (doLogin (invite dbC10b uC10b) "d@x" "").1 = LoginOutcome.tempOk ∧
    ((doLogin (invite dbC10b uC10b) "d@x" "").2.users.find?
      (fun x => x.email == "d@x")).map User.tempPassword = some none := by
  decide

/-- Supply of raw random draws; each `Math.random()` call consumes one
entry (missing entries default to 0).  Entries are mapped into [0,1) with
`Int.fract`, mirroring `Math.random()`'s codomain. -/
abbrev Rng := List Rat

/-- One `Math.random()` draw. -/
def nextRand : Rng → Rat × Rng
  | [] => (0, [])
  | q :: rest => (Int.fract q, rest)

theorem nextRand_bounds (g : Rng) :
    0 ≤ (nextRand g).1 ∧ (nextRand g).1 < 1 := by
  cases g with
  | nil => exact ⟨le_refl 0, by norm_num [nextRand]⟩
  | cons q rest => exact ⟨Int.fract_nonneg q, Int.fract_lt_one q⟩

/-- Embedding of `choice(arr)`, i.e. `arr[rand(0, arr.length - 1)]` with
`rand(min, max) = floor(random() * (max - min + 1)) + min`. -/
def chooseIdx (n : Nat) (g : Rng) : Nat × Rng :=
  ((⌊(nextRand g).1 * (n : Rat)⌋).toNat, (nextRand g).2)

/-- Pick a random element of a list (the JavaScript `choice` helper). -/
def choose (l : List String) (g : Rng) : String × Rng :=
  (l.getD (chooseIdx l.length g).1 "", (chooseIdx l.length g).2)

theorem chooseIdx_lt (n : Nat) (g : Rng) (hn : 0 < n) :
    (chooseIdx n g).1 < n := by
  obtain ⟨hu0, hu1⟩ := nextRand_bounds g
  have hnn : (0 : Rat) < (n : Rat) := by exact_mod_cast hn
  have hlt : (nextRand g).1 * (n : Rat) < (n : Rat) := by
    calc (nextRand g).1 * (n : Rat) < 1 * (n : Rat) := by
          exact mul_lt_mul_of_pos_right hu1 hnn
      _ = (n : Rat) := one_mul _
  have hfl : ⌊(nextRand g).1 * (n : Rat)⌋ < (n : Int) := by
    rw [Int.floor_lt]
    exact_mod_cast hlt
  have hge : 0 ≤ ⌊(nextRand g).1 * (n : Rat)⌋ := by
    rw [Int.floor_nonneg]
    exact mul_nonneg hu0 (le_of_lt hnn)
  show (⌊(nextRand g).1 * (n : Rat)⌋).toNat < n
  omega

theorem choose_mem (l : List String) (g : Rng) (h : l ≠ []) :
    (choose l g).1 ∈ l := by
  have hlen : 0 < l.length := List.length_pos.2 h
  have hidx := chooseIdx_lt l.length g hlen
  show l.getD (chooseIdx l.length g).1 "" ∈ l
  rw [List.getD_eq_getElem l "" hidx]
  exact List.getElem_mem hidx

/-- Embedding of `toFixed(d)` applied to a float: round to `d` decimal
places. -/
def roundTo (d : Nat) (x : Rat) : Rat :=
  ((round (x * (10 : Rat) ^ d) : Int) : Rat) / (10 : Rat) ^ d

/-- Embedding of `numberBetween(min, max, decimals)`:
`parseFloat((random() * (max - min) + min).toFixed(decimals))`. -/
def numberBetween (lo hi : Rat) (d : Nat) (g : Rng) : Rat × Rng :=
  (roundTo d ((nextRand g).1 * (hi - lo) + lo), (nextRand g).2)

/-- Embedding of `uid(tag)`: a tag plus a random suffix (the suffix's exact
shape is irrelevant to every property below, only the `Math.random()`
consumption matters). -/
def uidM (tag : String) (g : Rng) : String × Rng :=
  (tag ++ "_" ++ toString (nextRand g).1.num, (nextRand g).2)

/-- The active inventory statuses of the seed generator. -/
def invStatuses : List String := ["Bonded", "FAK", "On Site", "In Transit"]

/-- Per-cargo accumulator of the seed generator's `byCargo` object. -/
structure CargoAgg where
  quantity : Rat
  weight_kg : Rat
  last_movement : Int
deriving DecidableEq, Repr

/-- Upsert into an association list: create the binding from `init` if the
key is absent, then apply `f` (the embedding of
`if (!byCargo[k]) byCargo[k] = init; ...mutate byCargo[k]`). -/
def upsertA : List (String × α) → String → α → (α → α) → List (String × α)
  | [], k, init, f => [(k, f init)]
  | (k', v) :: rest, k, init, f =>
    if k' == k then (k', f v) :: rest else (k', v) :: upsertA rest k init f

/-- Fold the receipts into the per-cargo accumulator (adds quantity and
weight, stamps last movement), left to right as `forEach` does. -/
def foldReceipts : List (String × CargoAgg) → List Receipt →
    List (String × CargoAgg)
  | m, [] => m
  | m, r :: rs =>
    foldReceipts
      (upsertA m r.cargo_id
        { quantity := 0, weight_kg := 0, last_movement := r.date_in }
        (fun v => { quantity := v.quantity + r.quantity,
                    weight_kg := v.weight_kg + r.weight_kg,
                    last_movement := r.date_in })) rs

/-- Fold the dispatches into the per-cargo accumulator (subtracts quantity
and weight, stamps last movement), left to right as `forEach` does. -/
def foldDispatches : List (String × CargoAgg) → List Dispatch →
    List (String × CargoAgg)
  | m, [] => m
  | m, d :: ds =>
    foldDispatches
      (upsertA m d.cargo_id
        { quantity := 0, weight_kg := 0, last_movement := d.date_dispatched }
        (fun v => { quantity := v.quantity - d.qty_packed,
                    weight_kg := v.weight_kg - d.total_weight_kg,
                    last_movement := d.date_dispatched })) ds

/-- The seed generator's `byCargo` accumulator: all receipts added, then
all dispatches subtracted, grouped by cargo id in first-appearance order. -/
def byCargoOf (rs : List Receipt) (ds : List Dispatch) :
    List (String × CargoAgg) :=
  foldDispatches (foldReceipts [] rs) ds

/-- Build one seed inventory snapshot from a `byCargo` entry, threading the
random supply exactly as the source's object literal evaluates: `uid`
first, then the status ternary (which draws only when the net quantity is
positive), then `numberBetween` for the weight. -/
def snapshotOne (e : String × CargoAgg) (g : Rng) : Snapshot × Rng :=
  ({ id := (uidM "inv" g).1,
     cargo_id := e.1,
     status :=
       if e.2.quantity ≤ 0 then "Dispatched"
       else (choose invStatuses (uidM "inv" g).2).1,
     quantity := max 0 ((⌊e.2.quantity⌋ : Int) : Rat),
     weight_kg := max 0 (numberBetween (max 0 (e.2.weight_kg - 50))
       (max 0 (e.2.weight_kg + 50)) 1
       (if e.2.quantity ≤ 0 then (uidM "inv" g).2
        else (choose invStatuses (uidM "inv" g).2).2)).1,
     last_movement := e.2.last_movement },
   (numberBetween (max 0 (e.2.weight_kg - 50)) (max 0 (e.2.weight_kg + 50)) 1
     (if e.2.quantity ≤ 0 then (uidM "inv" g).2
      else (choose invStatuses (uidM "inv" g).2).2)).2)

/-- Map the `byCargo` entries to snapshots left to right, threading the
random supply. -/
def snapshotsOf : List (String × CargoAgg) → Rng → List Snapshot × Rng
  | [], g => ([], g)
  | e :: rest, g =>
    ((snapshotOne e g).1 :: (snapshotsOf rest (snapshotOne e g).2).1,
     (snapshotsOf rest (snapshotOne e g).2).2)

/-- The seed generator's derived `inventory_snapshot` from given receipt
and dispatch lists. -/
def inventorySnapshotOf (rs : List Receipt) (ds : List Dispatch) (g : Rng) :
    List Snapshot × Rng :=
  snapshotsOf (byCargoOf rs ds) g

/-- Net receipt quantity of a cargo id. -/
def rQty (rs : List Receipt) (c : String) : Rat :=
  ((rs.filter (fun r => r.cargo_id == c)).map Receipt.quantity).sum

/-- Net receipt weight of a cargo id. -/
def rWt (rs : List Receipt) (c : String) : Rat :=
  ((rs.filter (fun r => r.cargo_id == c)).map Receipt.weight_kg).sum

/-- Net dispatched quantity of a cargo id. -/
def dQty (ds : List Dispatch) (c : String) : Rat :=
  ((ds.filter (fun d => d.cargo_id == c)).map Dispatch.qty_packed).sum

/-- Net dispatched weight of a cargo id. -/
def dWt (ds : List Dispatch) (c : String) : Rat :=
  ((ds.filter (fun d => d.cargo_id == c)).map Dispatch.total_weight_kg).sum

/-- Folded (signed) quantity of a cargo id over the whole history. -/
def cargoQtySum (rs : List Receipt) (ds : List Dispatch) (c : String) : Rat :=
  rQty rs c - dQty ds c

/-- Folded (signed) weight of a cargo id over the whole history. -/
def cargoWtSum (rs : List Receipt) (ds : List Dispatch) (c : String) : Rat :=
  rWt rs c - dWt ds c

/-- Keys of an association list. -/
def keysOf (m : List (String × α)) : List String := m.map Prod.fst

/-- Quantity of an optional accumulator entry (0 when absent). -/
def aggQty : Option CargoAgg → Rat
  | some v => v.quantity
  | none => 0

/-- Weight of an optional accumulator entry (0 when absent). -/
def aggWt : Option CargoAgg → Rat
  | some v => v.weight_kg
  | none => 0

theorem lookupA_upsertA_self (m : List (String × α)) (k : String)
    (init : α) (f : α → α) :
    lookupA (upsertA m k init f) k = some (f ((lookupA m k).getD init)) := by
  induction m with
  | nil => simp [upsertA, lookupA]
  | cons kv rest ih =>
    obtain ⟨k', v⟩ := kv
    by_cases hk : k' = k
    · subst hk
      simp [upsertA, lookupA]
    · simp [upsertA, lookupA, hk, ih]

theorem lookupA_upsertA_ne (m : List (String × α)) (k c : String)
    (init : α) (f : α → α) (h : c ≠ k) :
    lookupA (upsertA m k init f) c = lookupA m c := by
  have hkc : ¬(k = c) := fun hh => h hh.symm
  induction m with
  | nil => simp [upsertA, lookupA, hkc]
  | cons kv rest ih =>
    obtain ⟨k', v⟩ := kv
    by_cases hk : k' = k
    · subst hk
      simp [upsertA, lookupA, hkc]
    · by_cases hc : k' = c <;> simp [upsertA, lookupA, hk, hc, h, ih]

theorem keysOf_upsertA (m : List (String × α)) (k : String)
    (init : α) (f : α → α) :
    keysOf (upsertA m k init f) = keysOf m ∨
    (keysOf (upsertA m k init f) = keysOf m ++ [k] ∧ k ∉ keysOf m) := by
  induction m with
  | nil => right; simp [upsertA, keysOf]
  | cons kv rest ih =>
    obtain ⟨k', v⟩ := kv
    by_cases hk : k' = k
    · subst hk
      left
      simp [upsertA, keysOf]
    · rcases ih with h | ⟨h, hnot⟩
      · left
        simp [upsertA, keysOf, hk] at h ⊢
        exact h
      · right
        constructor
        · simp [upsertA, keysOf, hk] at h ⊢
          exact h
        · simp [keysOf] at hnot ⊢
          exact ⟨fun hh => hk hh.symm, hnot⟩

theorem nodup_keys_upsertA (m : List (String × α)) (k : String)
    (init : α) (f : α → α) (h : (keysOf m).Nodup) :
    (keysOf (upsertA m k init f)).Nodup := by
  rcases keysOf_upsertA m k init f with he | ⟨he, hnot⟩
  · rw [he]; exact h
  · rw [he]
    simp [List.nodup_append, h, hnot]

theorem nodup_keys_foldReceipts (rs : List Receipt) :
    ∀ m : List (String × CargoAgg), (keysOf m).Nodup →
      (keysOf (foldReceipts m rs)).Nodup := by
  induction rs with
  | nil => intro m h; exact h
  | cons r rs ih =>
    intro m h
    rw [foldReceipts]
    exact ih _ (nodup_keys_upsertA _ _ _ _ h)

theorem nodup_keys_foldDispatches (ds : List Dispatch) :
    ∀ m : List (String × CargoAgg), (keysOf m).Nodup →
      (keysOf (foldDispatches m ds)).Nodup := by
  induction ds with
  | nil => intro m h; exact h
  | cons d ds ih =>
    intro m h
    rw [foldDispatches]
    exact ih _ (nodup_keys_upsertA _ _ _ _ h)

theorem nodup_keys_byCargoOf (rs : List Receipt) (ds : List Dispatch) :
    (keysOf (byCargoOf rs ds)).Nodup :=
  nodup_keys_foldDispatches ds _ (nodup_keys_foldReceipts rs [] (by simp [keysOf]))

theorem rQty_cons_eq (r : Receipt) (rs : List Receipt) :
    rQty (r :: rs) r.cargo_id = r.quantity + rQty rs r.cargo_id := by
  simp [rQty, List.filter_cons]

theorem rWt_cons_eq (r : Receipt) (rs : List Receipt) :
    rWt (r :: rs) r.cargo_id = r.weight_kg + rWt rs r.cargo_id := by
  simp [rWt, List.filter_cons]

theorem rQty_cons_ne (r : Receipt) (rs : List Receipt) (c : String)
    (h : r.cargo_id ≠ c) : rQty (r :: rs) c = rQty rs c := by
  simp [rQty, List.filter_cons, h]

theorem rWt_cons_ne (r : Receipt) (rs : List Receipt) (c : String)
    (h : r.cargo_id ≠ c) : rWt (r :: rs) c = rWt rs c := by
  simp [rWt, List.filter_cons, h]

theorem dQty_cons_eq (d : Dispatch) (ds : List Dispatch) :
    dQty (d :: ds) d.cargo_id = d.qty_packed + dQty ds d.cargo_id := by
  simp [dQty, List.filter_cons]

theorem dWt_cons_eq (d : Dispatch) (ds : List Dispatch) :
    dWt (d :: ds) d.cargo_id = d.total_weight_kg + dWt ds d.cargo_id := by
  simp [dWt, List.filter_cons]

theorem dQty_cons_ne (d : Dispatch) (ds : List Dispatch) (c : String)
    (h : d.cargo_id ≠ c) : dQty (d :: ds) c = dQty ds c := by
  simp [dQty, List.filter_cons, h]

theorem dWt_cons_ne (d : Dispatch) (ds : List Dispatch) (c : String)
    (h : d.cargo_id ≠ c) : dWt (d :: ds) c = dWt ds c := by
  simp [dWt, List.filter_cons, h]

theorem foldReceipts_lookup_none (rs : List Receipt) :
    ∀ (m : List (String × CargoAgg)) (c : String),
      lookupA (foldReceipts m rs) c = none ↔
        (lookupA m c = none ∧ rs.any (fun r => r.cargo_id == c) = false) := by
  induction rs with
  | nil => intro m c; simp [foldReceipts]
  | cons r rs ih =>
    intro m c
    rw [foldReceipts, ih]
    by_cases hc : r.cargo_id = c
    · subst hc
      simp [lookupA_upsertA_self]
    · have hne : c ≠ r.cargo_id := fun hh => hc hh.symm
      simp [lookupA_upsertA_ne _ _ _ _ _ hne, hc]

theorem foldDispatches_lookup_none (ds : List Dispatch) :
    ∀ (m : List (String × CargoAgg)) (c : String),
      lookupA (foldDispatches m ds) c = none ↔
        (lookupA m c = none ∧ ds.any (fun d => d.cargo_id == c) = false) := by
  induction ds with
  | nil => intro m c; simp [foldDispatches]
  | cons d ds ih =>
    intro m c
    rw [foldDispatches, ih]
    by_cases hc : d.cargo_id = c
    · subst hc
      simp [lookupA_upsertA_self]
    · have hne : c ≠ d.cargo_id := fun hh => hc hh.symm
      simp [lookupA_upsertA_ne _ _ _ _ _ hne, hc]

theorem foldReceipts_lookup_val (rs : List Receipt) :
    ∀ (m : List (String × CargoAgg)) (c : String) (v : CargoAgg),
      lookupA (foldReceipts m rs) c = some v →
      v.quantity = aggQty (lookupA m c) + rQty rs c ∧
      v.weight_kg = aggWt (lookupA m c) + rWt rs c := by
  induction rs with
  | nil =>
    intro m c v h
    rw [foldReceipts] at h
    simp [h, aggQty, aggWt, rQty, rWt]
  | cons r rs ih =>
    intro m c v h
    rw [foldReceipts] at h
    have hrec := ih _ c v h
    by_cases hc : r.cargo_id = c
    · subst hc
      rw [lookupA_upsertA_self] at hrec
      cases hm : lookupA m r.cargo_id with
      | none =>
        rw [hm] at hrec
        simp [aggQty, aggWt] at hrec ⊢
        rw [rQty_cons_eq, rWt_cons_eq]
        exact ⟨by linarith [hrec.1], by linarith [hrec.2]⟩
      | some w =>
        rw [hm] at hrec
        simp [aggQty, aggWt] at hrec ⊢
        rw [rQty_cons_eq, rWt_cons_eq]
        exact ⟨by linarith [hrec.1], by linarith [hrec.2]⟩
    · have hne : c ≠ r.cargo_id := fun hh => hc hh.symm
      rw [lookupA_upsertA_ne _ _ _ _ _ hne] at hrec
      rw [rQty_cons_ne _ _ _ hc, rWt_cons_ne _ _ _ hc]
      exact hrec

theorem foldDispatches_lookup_val (ds : List Dispatch) :
    ∀ (m : List (String × CargoAgg)) (c : String) (v : CargoAgg),
      lookupA (foldDispatches m ds) c = some v →
      v.quantity = aggQty (lookupA m c) - dQty ds c ∧
      v.weight_kg = aggWt (lookupA m c) - dWt ds c := by
  induction ds with
  | nil =>
    intro m c v h
    rw [foldDispatches] at h
    simp [h, aggQty, aggWt, dQty, dWt]
  | cons d ds ih =>
    intro m c v h
    rw [foldDispatches] at h
    have hrec := ih _ c v h
    by_cases hc : d.cargo_id = c
    · subst hc
      rw [lookupA_upsertA_self] at hrec
      cases hm : lookupA m d.cargo_id with
      | none =>
        rw [hm] at hrec
        simp [aggQty, aggWt] at hrec ⊢
        rw [dQty_cons_eq, dWt_cons_eq]
        exact ⟨by linarith [hrec.1], by linarith [hrec.2]⟩
      | some w =>
        rw [hm] at hrec
        simp [aggQty, aggWt] at hrec ⊢
        rw [dQty_cons_eq, dWt_cons_eq]
        exact ⟨by linarith [hrec.1], by linarith [hrec.2]⟩
    · have hne : c ≠ d.cargo_id := fun hh => hc hh.symm
      rw [lookupA_upsertA_ne _ _ _ _ _ hne] at hrec
      rw [dQty_cons_ne _ _ _ hc, dWt_cons_ne _ _ _ hc]
      exact hrec

theorem rQty_eq_zero_of_none (rs : List Receipt) (c : String)
    (h : rs.any (fun r => r.cargo_id == c) = false) : rQty rs c = 0 := by
  have hfil : rs.filter (fun r => r.cargo_id == c) = [] := by
    rw [List.filter_eq_nil_iff]
    intro r hr
    have := List.any_eq_false.1 h r hr
    simpa using this
  simp [rQty, hfil]

theorem rWt_eq_zero_of_none (rs : List Receipt) (c : String)
    (h : rs.any (fun r => r.cargo_id == c) = false) : rWt rs c = 0 := by
  have hfil : rs.filter (fun r => r.cargo_id == c) = [] := by
    rw [List.filter_eq_nil_iff]
    intro r hr
    have := List.any_eq_false.1 h r hr
    simpa using this
  simp [rWt, hfil]

theorem lookupA_byCargoOf_val (rs : List Receipt) (ds : List Dispatch)
    (c : String) (v : CargoAgg)
    (h : lookupA (byCargoOf rs ds) c = some v) :
    v.quantity = cargoQtySum rs ds c ∧ v.weight_kg = cargoWtSum rs ds c := by
  have hd := foldDispatches_lookup_val ds _ c v h
  cases hm : lookupA (foldReceipts [] rs) c with
  | some u =>
    have hr := foldReceipts_lookup_val rs [] c u hm
    rw [hm] at hd
    simp [lookupA, aggQty, aggWt] at hr
    refine ⟨?_, ?_⟩
    · rw [hd.1, cargoQtySum]
      simp [aggQty, hr.1]
    · rw [hd.2, cargoWtSum]
      simp [aggWt, hr.2]
  | none =>
    have hnone := (foldReceipts_lookup_none rs [] c).1 hm
    have hq0 := rQty_eq_zero_of_none rs c hnone.2
    have hw0 := rWt_eq_zero_of_none rs c hnone.2
    rw [hm] at hd
    refine ⟨?_, ?_⟩
    · rw [hd.1, cargoQtySum, hq0]
      simp [aggQty]
    · rw [hd.2, cargoWtSum, hw0]
      simp [aggWt]

theorem lookupA_byCargoOf_some (rs : List Receipt) (ds : List Dispatch)
    (c : String)
    (h : rs.any (fun r => r.cargo_id == c) = true ∨
      ds.any (fun d => d.cargo_id == c) = true) :
    ∃ v, lookupA (byCargoOf rs ds) c = some v := by
  cases hl : lookupA (byCargoOf rs ds) c with
  | some v => exact ⟨v, rfl⟩
  | none =>
    have h1 := (foldDispatches_lookup_none ds _ c).1 hl
    have h2 := (foldReceipts_lookup_none rs [] c).1 h1.1
    rcases h with hr | hd
    · rw [h2.2] at hr; cases hr
    · rw [h1.2] at hd; cases hd

theorem snapshotOne_cargo (e : String × CargoAgg) (g : Rng) :
    (snapshotOne e g).1.cargo_id = e.1 := rfl

theorem snapshotOne_quantity (e : String × CargoAgg) (g : Rng) :
    (snapshotOne e g).1.quantity = max 0 ((⌊e.2.quantity⌋ : Int) : Rat) := rfl

theorem snapshotOne_status_dispatched (e : String × CargoAgg) (g : Rng)
    (h : e.2.quantity ≤ 0) : (snapshotOne e g).1.status = "Dispatched" := by
  simp [snapshotOne, h]

theorem snapshotOne_status_mem (e : String × CargoAgg) (g : Rng)
    (h : ¬e.2.quantity ≤ 0) : (snapshotOne e g).1.status ∈ invStatuses := by
  simp only [snapshotOne, if_neg h]
  exact choose_mem _ _ (by simp [invStatuses])

theorem snapshotOne_weight (e : String × CargoAgg) (g : Rng) :
    ∃ u : Rat, 0 ≤ u ∧ u < 1 ∧
      (snapshotOne e g).1.weight_kg =
        max 0 (roundTo 1 (u * (max 0 (e.2.weight_kg + 50) -
          max 0 (e.2.weight_kg - 50)) + max 0 (e.2.weight_kg - 50))) :=
  ⟨(nextRand (if e.2.quantity ≤ 0 then (uidM "inv" g).2
      else (choose invStatuses (uidM "inv" g).2).2)).1,
    (nextRand_bounds _).1, (nextRand_bounds _).2, rfl⟩

theorem snapshotsOf_cargo_map :
    ∀ (entries : List (String × CargoAgg)) (g : Rng),
      ((snapshotsOf entries g).1).map Snapshot.cargo_id = keysOf entries := by
  intro entries
  induction entries with
  | nil => intro g; rfl
  | cons e rest ih =>
    intro g
    simp [snapshotsOf, keysOf, snapshotOne_cargo, ih]

theorem find_snapshotsOf :
    ∀ (entries : List (String × CargoAgg)) (g : Rng) (c : String)
      (v : CargoAgg),
      lookupA entries c = some v →
      ∃ s, ((snapshotsOf entries g).1).find? (fun x => x.cargo_id == c) =
          some s ∧
        s.quantity = max 0 ((⌊v.quantity⌋ : Int) : Rat) ∧
        (v.quantity ≤ 0 → s.status = "Dispatched") ∧
        (0 < v.quantity → s.status ∈ invStatuses) ∧
        ∃ u : Rat, 0 ≤ u ∧ u < 1 ∧
          s.weight_kg = max 0 (roundTo 1 (u * (max 0 (v.weight_kg + 50) -
            max 0 (v.weight_kg - 50)) + max 0 (v.weight_kg - 50))) := by
  intro entries
  induction entries with
  | nil => intro g c v h; simp [lookupA] at h
  | cons e rest ih =>
    intro g c v h
    obtain ⟨k, w⟩ := e
    by_cases hc : k = c
    · subst hc
      have hv : v = w := by
        simp [lookupA] at h
        exact h.symm
      subst hv
      refine ⟨(snapshotOne (k, v) g).1, ?_, snapshotOne_quantity _ _, ?_, ?_,
        snapshotOne_weight _ _⟩
      · rw [snapshotsOf]
        rw [List.find?_cons]
        have hp : (((snapshotOne (k, v) g).1).cargo_id == k) = true := by
          simp [snapshotOne_cargo]
        rw [hp]
      · intro hle
        exact snapshotOne_status_dispatched _ _ hle
      · intro hlt
        exact snapshotOne_status_mem _ _ (by linarith)
    · have hrest : lookupA rest c = some v := by
        simpa [lookupA, hc] using h
      obtain ⟨s, hs, hrestprops⟩ :=
        ih ((snapshotOne (k, w) g).2) c v hrest
      refine ⟨s, ?_, hrestprops⟩
      rw [snapshotsOf]
      rw [List.find?_cons]
      have hp : (((snapshotOne (k, w) g).1).cargo_id == c) = false := by
        simp [snapshotOne_cargo, hc]
      rw [hp]
      exact hs

/-- C7 (amended): in the seed generator's derived inventory, each distinct
cargo id gets exactly one snapshot (the cargo ids are pairwise distinct);
its quantity is the clamped floored fold max(0, ⌊Σ receipts − Σ dispatches⌋)
of that id's quantities; its status is "Dispatched" when the net quantity
is ≤ 0 and otherwise drawn from the active-status set; its weight is NOT
the clamped fold: it is max(0, numberBetween(max(0, w−50), max(0, w+50), 1))
for the folded weight w — a clamped random value in a ±50 band around the
fold, rounded to one decimal. -/
theorem seed_snapshot_fold (rs : List Receipt) (ds : List Dispatch)
    (g : Rng) (c : String)
    (hc : rs.any (fun r => r.cargo_id == c) = true ∨
      ds.any (fun d => d.cargo_id == c) = true) :
    (((inventorySnapshotOf rs ds g).1).map Snapshot.cargo_id).Nodup ∧
    ∃ s, ((inventorySnapshotOf rs ds g).1).find?
        (fun x => x.cargo_id == c) = some s ∧
      s.quantity = max 0 ((⌊cargoQtySum rs ds c⌋ : Int) : Rat) ∧
      (cargoQtySum rs ds c ≤ 0 → s.status = "Dispatched") ∧
      (0 < cargoQtySum rs ds c → s.status ∈ invStatuses) ∧
      ∃ u : Rat, 0 ≤ u ∧ u < 1 ∧
        s.weight_kg = max 0 (roundTo 1 (u * (max 0 (cargoWtSum rs ds c + 50) -
          max 0 (cargoWtSum rs ds c - 50)) + max 0 (cargoWtSum rs ds c - 50))) := by
  constructor
  · show ((snapshotsOf (byCargoOf rs ds) g).1.map Snapshot.cargo_id).Nodup
    rw [snapshotsOf_cargo_map]
    exact nodup_keys_byCargoOf rs ds
  · obtain ⟨v, hv⟩ := lookupA_byCargoOf_some rs ds c hc
    obtain ⟨hq, hw⟩ := lookupA_byCargoOf_val rs ds c v hv
    obtain ⟨s, hs, h1, h2, h3, h4⟩ := find_snapshotsOf (byCargoOf rs ds) g c v hv
    rw [hq] at h1 h2 h3
    rw [hw] at h4
    exact ⟨s, hs, h1, h2, h3, h4⟩

def rC7 : Receipt :=
  { id := "r7", cargo_id := "CG-7", date_in := 0, indent_number := "i7",
    quantity := 10, weight_kg := 100 }

def gC7 : Rng := [0, 0, 0]

theorem seed_snapshot_fold_witness :
    ([rC7].any (fun r => r.cargo_id == "CG-7") = true ∨
      ([] : List Dispatch).any (fun d => d.cargo_id == "CG-7") = true) ∧
    ((((inventorySnapshotOf [rC7] [] gC7).1).map Snapshot.cargo_id).Nodup ∧
    ∃ s, ((inventorySnapshotOf [rC7] [] gC7).1).find?
        (fun x => x.cargo_id == "CG-7") = some s ∧
      s.quantity = max 0 ((⌊cargoQtySum [rC7] [] "CG-7"⌋ : Int) : Rat) ∧
      (cargoQtySum [rC7] [] "CG-7" ≤ 0 → s.status = "Dispatched") ∧
      (0 < cargoQtySum [rC7] [] "CG-7" → s.status ∈ invStatuses) ∧
      ∃ u : Rat, 0 ≤ u ∧ u < 1 ∧
        s.weight_kg = max 0 (roundTo 1
          (u * (max 0 (cargoWtSum [rC7] [] "CG-7" + 50) -
            max 0 (cargoWtSum [rC7] [] "CG-7" - 50)) +
            max 0 (cargoWtSum [rC7] [] "CG-7" - 50)))) :=
  ⟨Or.inl (by decide),
   seed_snapshot_fold [rC7] [] gC7 "CG-7" (Or.inl (by decide))⟩

theorem roundTo_fifty : roundTo 1 (50 : Rat) = 50 := by
  unfold roundTo
  rw [show (50 : Rat) * (10 : Rat) ^ (1 : Nat) = ((500 : Int) : Rat) by norm_num]
  rw [round_intCast]
  norm_num

/-- C7 counterexample: one receipt of weight 100 and a random supply that
draws the low end of the band produces a seed snapshot weight of 50, while
the clamped fold of the weights is max(0, 100) = 100 — the seed snapshot
weight is a randomized perturbation, not the clamped fold. -/
theorem seed_weight_counterexample :
    ((inventorySnapshotOf [rC7] [] gC7).1.find?
      (fun x => x.cargo_id == "CG-7")).map Snapshot.weight_kg = some 50 ∧
    max 0 (cargoWtSum [rC7] [] "CG-7") = 100 ∧
    ¬(((inventorySnapshotOf [rC7] [] gC7).1.find?
      (fun x => x.cargo_id == "CG-7")).map Snapshot.weight_kg =
      some (max 0 (cargoWtSum [rC7] [] "CG-7"))) := by
  have hsum : cargoWtSum [rC7] [] "CG-7" = 100 := by
    simp [cargoWtSum, rWt, dWt, rC7, List.filter_cons]
  have hmax : max (0 : Rat) (cargoWtSum [rC7] [] "CG-7") = 100 := by
    rw [hsum]
    exact max_eq_right (by norm_num)
  have hq : ¬((10 : Rat) ≤ 0) := by norm_num
  have hlo : max (0 : Rat) (100 - 50) = 50 := by
    rw [show (100 : Rat) - 50 = 50 by norm_num]
    exact max_eq_right (by norm_num)
  have hhi : max (0 : Rat) (100 + 50) = 150 := by
    rw [show (100 : Rat) + 50 = 150 by norm_num]
    exact max_eq_right (by norm_num)
  have hwv : ((inventorySnapshotOf [rC7] [] gC7).1.find?
      (fun x => x.cargo_id == "CG-7")).map Snapshot.weight_kg = some 50 := by
    have hby : byCargoOf [rC7] [] =
        [("CG-7", ⟨0 + 10, 0 + 100, 0⟩)] := rfl
    show ((snapshotsOf (byCargoOf [rC7] []) gC7).1.find?
      (fun x => x.cargo_id == "CG-7")).map Snapshot.weight_kg = some 50
    rw [hby]
    simp only [snapshotsOf, snapshotOne, uidM, choose, chooseIdx,
      numberBetween, nextRand, gC7, invStatuses]
    simp only [List.find?_cons, List.find?_nil]
    simp [hq, hlo, hhi, Int.fract_zero]
    rw [roundTo_fifty]
    exact max_eq_right (by norm_num)
  refine ⟨hwv, hmax, ?_⟩
  rw [hwv, hmax]
  intro hcontra
  have : (50 : Rat) = 100 := Option.some.inj hcontra
  norm_num at this

/-- Does a field need CSV quoting?  Embedding of
`s.includes(',') || s.includes('"') || s.includes('\n')`. -/
def needsQuote (s : List Char) : Bool :=
  s.any (fun c => (c == ',') || (c == '"') || (c == '\n'))

/-- Double every double quote (embedding of `s.replace(/"/g, '""')`). -/
def escQuotes : List Char → List Char
  | [] => []
  | c :: r => if c = '"' then '"' :: '"' :: escQuotes r else c :: escQuotes r

/-- Embedding of `csvEscape`: null/undefined become the empty field, a
field containing a comma, double quote or newline is wrapped in double
quotes with embedded quotes doubled, any other field is emitted verbatim.
(A JavaScript string value is modelled as its list of characters; `none`
models null/undefined.) -/
def csvEscape (v : Option (List Char)) : List Char :=
  match v with
  | none => []
  | some s => if needsQuote s then '"' :: (escQuotes s ++ ['"']) else s

/-- A record as an ordered list of (field name, value) pairs — the
insertion-ordered own properties of a JavaScript object. -/
abbrev Row := List (String × Option (List Char))

/-- Embedding of `r[h]` (first binding wins, absent key gives null). -/
def rowLookup (r : Row) (k : String) : Option (List Char) :=
  match r.find? (fun kv => kv.1 == k) with
  | some kv => kv.2
  | none => none

/-- Embedding of `Object.keys(rows[0])`. -/
def headersOf (rows : List Row) : List String := (rows.headD []).map Prod.fst

/-- Join chunks with a separator (embedding of `Array.prototype.join`). -/
def joinSep (sep : List Char) : List (List Char) → List Char
  | [] => []
  | [x] => x
  | x :: y :: rest => x ++ sep ++ joinSep sep (y :: rest)

/-- One emitted CSV line for the given fields. -/
def lineOf (vals : List (Option (List Char))) : List Char :=
  joinSep [','] (vals.map csvEscape)

/-- The data line of a record: the comma-joined, quote-escaped values of
the header fields in header order. -/
def rowLine (hs : List String) (r : Row) : List Char :=
  joinSep [','] (hs.map (fun h => csvEscape (rowLookup r h)))

/-- The header line: the comma-joined field names (not escaped, as in the
source's `headers.join(",")`). -/
def headerLine (hs : List String) : List Char :=
  joinSep [','] (hs.map String.toList)

/-- Embedding of `exportCSV`'s produced text for a non-empty record list:
the header line followed by one line per record, joined with newlines. -/
def exportCSV (rows : List Row) : List Char :=
  joinSep ['\n']
    (headerLine (headersOf rows) :: rows.map (rowLine (headersOf rows)))

/-- Read a quoted CSV field after its opening quote: a doubled quote is an
escaped quote, a lone quote closes the field. -/
def parseQuoted : List Char → List Char × List Char
  | [] => ([], [])
  | [c] => if c = '"' then ([], []) else ([c], [])
  | c :: c2 :: r =>
    if c = '"' then
      if c2 = '"' then ('"' :: (parseQuoted r).1, (parseQuoted r).2)
      else ([], c2 :: r)
    else (c :: (parseQuoted (c2 :: r)).1, (parseQuoted (c2 :: r)).2)

/-- Read an unquoted CSV field: everything up to the next comma or
newline (which stays in the remainder). -/
def parseRaw : List Char → List Char × List Char
  | [] => ([], [])
  | c :: r =>
    if c = ',' ∨ c = '\n' then ([], c :: r)
    else (c :: (parseRaw r).1, (parseRaw r).2)

/-- Read one CSV field, quoted or raw. -/
def parseField : List Char → List Char × List Char
  | [] => ([], [])
  | c :: r => if c = '"' then parseQuoted r else parseRaw (c :: r)

/-- Read the fields of one CSV record up to and including the record's
terminating newline (or the end of input); fuelled structural recursion. -/
def parseRecordF : Nat → List Char → List (List Char) × List Char
  | 0, cs => ([], cs)
  | fuel + 1, cs =>
    match (parseField cs).2 with
    | ',' :: r =>
      ((parseField cs).1 :: (parseRecordF fuel r).1, (parseRecordF fuel r).2)
    | '\n' :: r => ([(parseField cs).1], r)
    | _ => ([(parseField cs).1], [])

/-- Read one CSV record with enough fuel. -/
def parseRecord (cs : List Char) : List (List Char) × List Char :=
  parseRecordF cs.length.succ cs

/-- Split a CSV text into records (quote-aware); fuelled structural
recursion. -/
def parseCSVF : Nat → List Char → List (List (List Char))
  | 0, _ => []
  | fuel + 1, cs =>
    if cs = [] then []
    else (parseRecord cs).1 :: parseCSVF fuel (parseRecord cs).2

/-- Parse a CSV text into its records of fields — the reader used to state
the round-trip property of `exportCSV`. -/
def parseCSV (cs : List Char) : List (List (List Char)) :=
  parseCSVF cs.length.succ cs

theorem escQuotes_quote (s : List Char) :
    escQuotes ('"' :: s) = '"' :: '"' :: escQuotes s := by
  rw [escQuotes, if_pos rfl]

theorem escQuotes_other (c : Char) (s : List Char) (h : c ≠ '"') :
    escQuotes (c :: s) = c :: escQuotes s := by
  simp [escQuotes, h]

theorem parseQuoted_cons_other (c : Char) (r : List Char) (h : c ≠ '"') :
    parseQuoted (c :: r) = (c :: (parseQuoted r).1, (parseQuoted r).2) := by
  cases r with
  | nil => simp [parseQuoted, h]
  | cons c2 r2 => simp [parseQuoted, h]

theorem parseQuoted_quote_quote (r : List Char) :
    parseQuoted ('"' :: '"' :: r) =
      ('"' :: (parseQuoted r).1, (parseQuoted r).2) := by
  simp [parseQuoted]

theorem parseQuoted_quote_other (c : Char) (r : List Char) (h : c ≠ '"') :
    parseQuoted ('"' :: c :: r) = ([], c :: r) := by
  simp [parseQuoted, h]

theorem parseRaw_delim (c : Char) (r : List Char) (h : c = ',' ∨ c = '\n') :
    parseRaw (c :: r) = ([], c :: r) := by
  simp [parseRaw, h]

theorem parseRaw_other (c : Char) (r : List Char) (h : ¬(c = ',' ∨ c = '\n')) :
    parseRaw (c :: r) = (c :: (parseRaw r).1, (parseRaw r).2) := by
  simp [parseRaw, h]

theorem parseRaw_exact : ∀ (s rest : List Char),
    (∀ c ∈ s, ¬(c = ',' ∨ c = '\n')) →
    (rest = [] ∨ (∃ r', rest = ',' :: r') ∨ (∃ r', rest = '\n' :: r')) →
    parseRaw (s ++ rest) = (s, rest) := by
  intro s
  induction s with
  | nil =>
    intro rest _ hrest
    rcases hrest with rfl | ⟨r', rfl⟩ | ⟨r', rfl⟩
    · rfl
    · exact parseRaw_delim ',' r' (Or.inl rfl)
    · exact parseRaw_delim '\n' r' (Or.inr rfl)
  | cons c s' ih =>
    intro rest hs hrest
    have hc : ¬(c = ',' ∨ c = '\n') := hs c (by simp)
    rw [List.cons_append, parseRaw_other c _ hc,
      ih rest (fun x hx => hs x (by simp [hx])) hrest]

theorem parseQuoted_exact : ∀ (s rest : List Char),
    (∀ r', rest ≠ '"' :: r') →
    parseQuoted (escQuotes s ++ ('"' :: rest)) = (s, rest) := by
  intro s
  induction s with
  | nil =>
    intro rest hrest
    show parseQuoted ('"' :: rest) = ([], rest)
    cases rest with
    | nil => rfl
    | cons c2 r2 =>
      have hc2 : c2 ≠ '"' := fun h => hrest r2 (by rw [h])
      exact parseQuoted_quote_other c2 r2 hc2
  | cons c s' ih =>
    intro rest hrest
    by_cases hc : c = '"'
    · subst hc
      rw [escQuotes_quote, List.cons_append, List.cons_append,
        parseQuoted_quote_quote, ih rest hrest]
    · rw [escQuotes_other c s' hc, List.cons_append,
        parseQuoted_cons_other c _ hc, ih rest hrest]

theorem needsQuote_false_no_delims (s : List Char)
    (h : needsQuote s = false) :
    ∀ c ∈ s, ¬(c = ',' ∨ c = '\n') := by
  intro c hc habs
  have h2 := List.any_eq_false.1 h c hc
  rcases habs with rfl | rfl <;> simp at h2

theorem needsQuote_false_no_quote (s : List Char)
    (h : needsQuote s = false) :
    ∀ c ∈ s, c ≠ '"' := by
  intro c hc habs
  subst habs
  have h2 := List.any_eq_false.1 h _ hc
  simp at h2

theorem parseField_escape (v : Option (List Char)) (rest : List Char)
    (hrest : rest = [] ∨ (∃ r', rest = ',' :: r') ∨
      (∃ r', rest = '\n' :: r')) :
    parseField (csvEscape v ++ rest) = (v.getD [], rest) := by
  have hraw_nil : parseField ([] ++ rest) = ([], rest) := by
    rcases hrest with rfl | ⟨r', rfl⟩ | ⟨r', rfl⟩
    · rfl
    · show parseField (',' :: r') = ([], ',' :: r')
      rw [parseField]
      rw [if_neg (by decide)]
      exact parseRaw_delim ',' r' (Or.inl rfl)
    · show parseField ('\n' :: r') = ([], '\n' :: r')
      rw [parseField]
      rw [if_neg (by decide)]
      exact parseRaw_delim '\n' r' (Or.inr rfl)
  cases v with
  | none => exact hraw_nil
  | some s =>
    cases hq : needsQuote s with
    | true =>
      have hesc : csvEscape (some s) = '"' :: (escQuotes s ++ ['"']) := by
        simp [csvEscape, hq]
      rw [hesc]
      show parseField (('"' :: (escQuotes s ++ ['"'])) ++ rest) = (s, rest)
      have hshape : ('"' :: (escQuotes s ++ ['"'])) ++ rest =
          '"' :: (escQuotes s ++ ('"' :: rest)) := by
        simp
      rw [hshape, parseField, if_pos rfl]
      apply parseQuoted_exact
      intro r' habs
      rcases hrest with rfl | ⟨t, rfl⟩ | ⟨t, rfl⟩
      · cases habs
      · cases habs
      · cases habs
    | false =>
      have hesc : csvEscape (some s) = s := by
        simp [csvEscape, hq]
      rw [hesc]
      show parseField (s ++ rest) = (s, rest)
      cases s with
      | nil => exact hraw_nil
      | cons c s' =>
        have hcq : c ≠ '"' := needsQuote_false_no_quote _ hq c (by simp)
        rw [List.cons_append, parseField, if_neg hcq, ← List.cons_append]
        exact parseRaw_exact (c :: s') rest
          (needsQuote_false_no_delims _ hq) hrest

theorem parseRecordF_line :
    ∀ (vals : List (Option (List Char))) (tl : List Char) (fuel : Nat),
      vals ≠ [] →
      (tl = [] ∨ ∃ t, tl = '\n' :: t) →
      (lineOf vals ++ tl).length < fuel →
      parseRecordF fuel (lineOf vals ++ tl) =
        (vals.map (fun v => v.getD []), tl.tail) := by
  intro vals
  induction vals with
  | nil => intro tl fuel hv _ _; exact absurd rfl hv
  | cons v vs ih =>
    intro tl fuel _ ht hfuel
    cases fuel with
    | zero => omega
    | succ k =>
      cases vs with
      | nil =>
        have hline : lineOf [v] = csvEscape v := rfl
        rw [hline] at hfuel ⊢
        have hfield := parseField_escape v tl (by
          rcases ht with rfl | ⟨t, rfl⟩
          · exact Or.inl rfl
          · exact Or.inr (Or.inr ⟨t, rfl⟩))
        rw [parseRecordF, hfield]
        rcases ht with rfl | ⟨t, rfl⟩
        · simp
        · simp
      | cons v2 vs2 =>
        have hline : lineOf (v :: v2 :: vs2) =
            csvEscape v ++ (',' :: lineOf (v2 :: vs2)) := by
          show joinSep [','] (csvEscape v :: csvEscape v2 ::
            (vs2.map csvEscape)) = _
          rw [joinSep]
          simp [lineOf]
        rw [hline] at hfuel ⊢
        have hassoc : (csvEscape v ++ (',' :: lineOf (v2 :: vs2))) ++ tl =
            csvEscape v ++ (',' :: (lineOf (v2 :: vs2) ++ tl)) := by
          simp
        rw [hassoc] at hfuel ⊢
        have hfield := parseField_escape v (',' :: (lineOf (v2 :: vs2) ++ tl))
          (Or.inr (Or.inl ⟨_, rfl⟩))
        rw [parseRecordF, hfield]
        have hlen : (lineOf (v2 :: vs2) ++ tl).length < k := by
          simp only [List.length_append, List.length_cons] at hfuel ⊢
          omega
        have hrec := ih tl k (by simp) ht hlen
        simp [hrec]

theorem parseCSVF_nil : ∀ fuel, parseCSVF fuel [] = [] := by
  intro fuel
  cases fuel with
  | zero => rfl
  | succ k => simp [parseCSVF]

theorem parseCSVF_records :
    ∀ (recs : List (List (Option (List Char)))) (fuel : Nat),
      recs ≠ [] →
      (∀ vals ∈ recs, vals ≠ []) →
      (∀ vals, recs.getLast? = some vals → lineOf vals ≠ []) →
      (joinSep ['\n'] (recs.map lineOf)).length < fuel →
      parseCSVF fuel (joinSep ['\n'] (recs.map lineOf)) =
        recs.map (fun vals => vals.map (fun v => v.getD [])) := by
  intro recs
  induction recs with
  | nil => intro fuel h _ _ _; exact absurd rfl h
  | cons vals rest ih =>
    intro fuel _ hall hlast hfuel
    cases fuel with
    | zero => omega
    | succ k =>
      cases rest with
      | nil =>
        have hin : joinSep ['\n'] ([vals].map lineOf) = lineOf vals := rfl
        rw [hin] at hfuel ⊢
        have hne2 : lineOf vals ≠ [] := hlast vals rfl
        rw [parseCSVF, if_neg hne2]
        have hrec : parseRecord (lineOf vals) =
            (vals.map (fun v => v.getD []), []) := by
          show parseRecordF (lineOf vals).length.succ (lineOf vals) = _
          have hl := parseRecordF_line vals [] (lineOf vals).length.succ
            (hall vals (by simp)) (Or.inl rfl) (by simp)
          simpa using hl
        rw [hrec]
        simp [parseCSVF_nil]
      | cons vals2 rest2 =>
        have hin : joinSep ['\n'] ((vals :: vals2 :: rest2).map lineOf) =
            lineOf vals ++
              ('\n' :: joinSep ['\n'] ((vals2 :: rest2).map lineOf)) := by
          show joinSep ['\n']
            (lineOf vals :: lineOf vals2 :: rest2.map lineOf) = _
          rw [joinSep]
          simp
        rw [hin] at hfuel ⊢
        have hne2 : lineOf vals ++
            ('\n' :: joinSep ['\n'] ((vals2 :: rest2).map lineOf)) ≠ [] := by
          intro habs
          rcases List.append_eq_nil.1 habs with ⟨_, h2⟩
          cases h2
        rw [parseCSVF, if_neg hne2]
        have hrec : parseRecord (lineOf vals ++
            ('\n' :: joinSep ['\n'] ((vals2 :: rest2).map lineOf))) =
            (vals.map (fun v => v.getD []),
              joinSep ['\n'] ((vals2 :: rest2).map lineOf)) := by
          show parseRecordF _ _ = _
          have hl := parseRecordF_line vals
            ('\n' :: joinSep ['\n'] ((vals2 :: rest2).map lineOf))
            (lineOf vals ++
              ('\n' :: joinSep ['\n'] ((vals2 :: rest2).map lineOf))).length.succ
            (hall vals (by simp)) (Or.inr ⟨_, rfl⟩) (Nat.lt_succ_self _)
          simpa using hl
        rw [hrec]
        have hlen : (joinSep ['\n'] ((vals2 :: rest2).map lineOf)).length < k := by
          simp only [List.length_append, List.length_cons] at hfuel
          omega
        have hlast' : ∀ v', (vals2 :: rest2).getLast? = some v' →
            lineOf v' ≠ [] := by
          intro v' hv'
          apply hlast
          rw [List.getLast?_cons_cons]
          exact hv'
        have hihres := ih k (by simp)
          (fun v' hv' => hall v' (by simp [hv'])) hlast' hlen
        rw [hihres]
        simp

theorem rowLookup_head (k : String) (v : Option (List Char)) (r : Row) :
    rowLookup ((k, v) :: r) k = v := by
  simp [rowLookup, List.find?_cons]

theorem rowLookup_skip (k : String) (v : Option (List Char)) (r : Row)
    (k' : String) (h : k' ≠ k) :
    rowLookup ((k, v) :: r) k' = rowLookup r k' := by
  have hb : (k == k') = false := by
    simp
    exact fun hh => h hh.symm
  simp [rowLookup, List.find?_cons, hb]

theorem rowVals_getD (r : Row) :
    ∀ hs : List String, r.map Prod.fst = hs → hs.Nodup →
      hs.map (fun h => (rowLookup r h).getD []) =
        r.map (fun kv => kv.2.getD []) := by
  induction r with
  | nil =>
    intro hs hk _
    rw [← hk]
    rfl
  | cons kv r' ih =>
    intro hs hk hnd
    obtain ⟨k, v⟩ := kv
    subst hk
    simp only [List.map_cons] at hnd ⊢
    rw [List.nodup_cons] at hnd
    rw [rowLookup_head]
    congr 1
    have hcongr : (r'.map Prod.fst).map
        (fun h => (rowLookup ((k, v) :: r') h).getD []) =
        (r'.map Prod.fst).map (fun h => (rowLookup r' h).getD []) := by
      apply List.map_congr_left
      intro h hh
      have hne : h ≠ k := fun habs => hnd.1 (habs ▸ hh)
      rw [rowLookup_skip k v r' h hne]
    rw [hcongr]
    exact ih (r'.map Prod.fst) rfl hnd.2

theorem getLast?_cons_of_ne_nil (a : α) (l : List α) (h : l ≠ []) :
    (a :: l).getLast? = l.getLast? := by
  cases l with
  | nil => exact absurd rfl h
  | cons b l' => exact List.getLast?_cons_cons

theorem getLast?_map_eq (f : α → β) :
    ∀ l : List α, (l.map f).getLast? = l.getLast?.map f := by
  intro l
  induction l with
  | nil => rfl
  | cons a l' ih =>
    cases l' with
    | nil => rfl
    | cons b l'' =>
      rw [List.map_cons, List.map_cons, List.getLast?_cons_cons,
        ← List.map_cons, ih, List.getLast?_cons_cons]

/-- C8: for a non-empty list of same-shape records with at least one field,
pairwise-distinct clean header names (no comma, quote or newline in a field
name) and non-null values, whose last row does not render as an empty line
(which only a single-column row with an empty value produces — there the
final "" is indistinguishable from no row at all), the CSV text emitted by
`exportCSV` parses back to exactly the header names followed by every
record's field values verbatim — commas, quotes and newlines inside values
survive the round trip — and the parse yields exactly N+1 records. -/
theorem exportCSV_roundtrip (rows : List Row)
    (hne : rows ≠ [])
    (hh : headersOf rows ≠ [])
    (hclean : ∀ h ∈ headersOf rows, needsQuote h.toList = false)
    (hnodup : (headersOf rows).Nodup)
    (hshape : ∀ r ∈ rows, r.map Prod.fst = headersOf rows)
    (hnn : ∀ r ∈ rows, ∀ kv ∈ r, kv.2 ≠ none)
    (hlast : ∀ r, rows.getLast? = some r →
      rowLine (headersOf rows) r ≠ []) :
    parseCSV (exportCSV rows) =
      (headersOf rows).map String.toList ::
        rows.map (fun r => r.map (fun kv => kv.2.getD [])) ∧
    (parseCSV (exportCSV rows)).length = rows.length + 1 := by
  have hs := headersOf rows
  set hdrs := headersOf rows with hhd
  set headerVals : List (Option (List Char)) :=
    hdrs.map (fun h => some h.toList) with hhv
  set rowVals : Row → List (Option (List Char)) :=
    fun r => hdrs.map (fun h => rowLookup r h) with hrv
  set recs : List (List (Option (List Char))) :=
    headerVals :: rows.map rowVals with hrecs
  have hline_hdr : lineOf headerVals = headerLine hdrs := by
    rw [hhv, lineOf, headerLine, List.map_map]
    congr 1
    apply List.map_congr_left
    intro h hmem
    show csvEscape (some h.toList) = h.toList
    have hcl : needsQuote h.data = false := hclean h hmem
    simp [csvEscape, hcl]
  have hline_row : ∀ r, lineOf (rowVals r) = rowLine hdrs r := by
    intro r
    rw [hrv, lineOf, rowLine, List.map_map]
    rfl
  have hexp : exportCSV rows = joinSep ['\n'] (recs.map lineOf) := by
    have h1 : recs.map lineOf =
        headerLine hdrs :: rows.map (rowLine hdrs) := by
      rw [hrecs, List.map_cons, hline_hdr, List.map_map]
      congr 1
      apply List.map_congr_left
      intro r _
      exact hline_row r
    rw [h1, exportCSV, ← hhd]
  have hallne : ∀ vals ∈ recs, vals ≠ [] := by
    intro vals hmem
    rw [hrecs] at hmem
    rcases List.mem_cons.1 hmem with rfl | hmem2
    · rw [hhv]
      simp [List.map_eq_nil_iff]
      intro habs
      exact hh (hhd ▸ habs)
    · obtain ⟨r, _, rfl⟩ := List.mem_map.1 hmem2
      rw [hrv]
      simp [List.map_eq_nil_iff]
      intro habs
      exact hh (hhd ▸ habs)
  have hlast2 : ∀ vals, recs.getLast? = some vals → lineOf vals ≠ [] := by
    intro vals hv
    have hnil : rows.map rowVals ≠ [] := by
      simp [List.map_eq_nil_iff]
      exact hne
    rw [hrecs, getLast?_cons_of_ne_nil _ _ hnil, getLast?_map_eq] at hv
    cases hrl : rows.getLast? with
    | none => rw [hrl] at hv; cases hv
    | some rl =>
      rw [hrl] at hv
      have : vals = rowVals rl := (Option.some.inj hv).symm
      subst this
      rw [hline_row]
      exact hlast rl hrl
  have hmain := parseCSVF_records recs (exportCSV rows).length.succ
    (by rw [hrecs]; simp)
    hallne
    hlast2
    (by rw [hexp]; exact Nat.lt_succ_self _)
  have hres : parseCSV (exportCSV rows) =
      recs.map (fun vals => vals.map (fun v => v.getD [])) := by
    rw [parseCSV]
    rw [hexp] at hmain ⊢
    exact hmain
  have hvals : recs.map (fun vals => vals.map (fun v => v.getD [])) =
      hdrs.map String.toList ::
        rows.map (fun r => r.map (fun kv => kv.2.getD [])) := by
    rw [hrecs, List.map_cons]
    congr 1
    · rw [hhv, List.map_map]
      apply List.map_congr_left
      intro h _
      rfl
    · rw [List.map_map]
      apply List.map_congr_left
      intro r hmem
      show ((hdrs.map (fun h => rowLookup r h)).map (fun v => v.getD [])) =
        r.map (fun kv => kv.2.getD [])
      rw [List.map_map]
      exact rowVals_getD r hdrs (hshape r hmem) hnodup
  constructor
  · rw [hres, hvals, hhd]
  · rw [hres, hvals]
    simp

def rowsC8 : List Row :=
  [[("id", some ['1']),
    ("note", some ['a', ',', 'b', '"', 'c', '\n', 'd'])],
   [("id", some ['2']),
    ("note", some ['p', 'l', 'a', 'i', 'n'])]]

theorem exportCSV_roundtrip_witness :
    (rowsC8 ≠ [] ∧ headersOf rowsC8 ≠ [] ∧ (headersOf rowsC8).Nodup) ∧
    (parseCSV (exportCSV rowsC8) =
      (headersOf rowsC8).map String.toList ::
        rowsC8.map (fun r => r.map (fun kv => kv.2.getD [])) ∧
    (parseCSV (exportCSV rowsC8)).length = rowsC8.length + 1) :=
  ⟨⟨by decide, by decide, by decide⟩,
   exportCSV_roundtrip rowsC8 (by decide) (by decide) (by decide) (by decide)
     (by decide) (by decide)
     (by
       intro r hr
       have hlastval : rowsC8.getLast? =
           some [("id", some ['2']), ("note", some ['p', 'l', 'a', 'i', 'n'])] := by
         decide
       rw [hlastval] at hr
       have hre := Option.some.inj hr
       rw [← hre]
       decide)⟩
